import Mathlib

/-!
A shallow embedding of the `atopile-analyzer` evaluator
(`src/crates/atopile_analyzer/src/evaluator.rs`) together with proofs about
its data model and algorithms: instance cloning, connection resolution,
block ordering, and the import-driven evaluation pipeline.

Modelling conventions:
* Rust `HashMap`s are modelled as association lists with replace-or-append
  insertion; iteration order is the list order (one fixed order among the
  orders a `HashMap` may exhibit).
* `PathBuf` is modelled as `String` (paths are taken as already canonical);
  the filesystem visible to the evaluator is exactly the registered file map.
* Source spans/locations are modelled as an abstract `Loc` (file + opaque id);
  diagnostic messages are dropped, diagnostic kinds and locations are kept.
* `f64` attribute values are represented by their source text: no claim below
  depends on float arithmetic, only on values being copied verbatim.
* The recursions that Rust runs unboundedly (`clone_instance` over the store's
  child graph, `evaluate_inner` over imports) take an explicit fuel argument;
  theorems either supply sufficient fuel or prove it sufficient.
-/

namespace Atopile

/-- Interned identifier, `parser::Symbol`. -/
abbrev Symbol := String

/-- Abstract source location: the file it belongs to plus an opaque span id. -/
structure Loc where
  file : String
  id : Nat
deriving DecidableEq, Repr

/-- `ModuleRef`: identity of a declared type (declaring file, type name). -/
structure ModuleRef where
  source_path : String
  module_name : Symbol
deriving DecidableEq, Repr

/-- `ModuleRef::port()`: the placeholder type of implicit ports. -/
def ModuleRef.port : ModuleRef := { source_path := "", module_name := "" }

/-- `ModuleRef::pin()`: the placeholder type of implicit pins. -/
def ModuleRef.pin : ModuleRef := { source_path := "", module_name := "" }

/-- `InstanceRef`: a root module plus the dotted path from that root. -/
structure InstanceRef where
  module : ModuleRef
  instance_path : List Symbol
deriving DecidableEq, Repr

/-- `InstanceRef::from(ModuleRef)`: the root instance of a module. -/
def ModuleRef.root (m : ModuleRef) : InstanceRef :=
  { module := m, instance_path := [] }

/-- `InstanceKind`. -/
inductive InstanceKind where
  | Module
  | Component
  | Interface
  | Port
  | Pin
deriving DecidableEq, Repr

/-- `AttributeValue`. `Number` keeps the source text of the `f64`. -/
inductive AttributeValue where
  | string (s : String)
  | number (n : String)
  | boolean (b : Bool)
  | physical (display : String)
  | port (display : String)
  | array (items : List AttributeValue)

/-- `Connection`: an ordered pair of endpoint references. -/
structure Connection where
  left : InstanceRef
  right : InstanceRef
deriving DecidableEq, Repr

/-- `Instance`: one node of the instance graph. -/
structure Instance where
  type_ref : ModuleRef
  kind : InstanceKind
  attributes : List (Symbol × AttributeValue)
  children : List (Symbol × InstanceRef)
  connections : List Connection
  reference_designator : Option String

/-- `Instance::new`. -/
def Instance.new (module : ModuleRef) (kind : InstanceKind) : Instance :=
  { type_ref := module, kind := kind, attributes := [], children := [],
    connections := [], reference_designator := none }

/-- `Instance::port()`: a fresh, empty port instance. -/
def Instance.port : Instance :=
  { type_ref := ModuleRef.port, kind := .Port, attributes := [], children := [],
    connections := [], reference_designator := none }

/-- `Instance::pin()`: a fresh, empty pin instance. -/
def Instance.pin : Instance :=
  { type_ref := ModuleRef.pin, kind := .Pin, attributes := [], children := [],
    connections := [], reference_designator := none }

/-- Association-list lookup (models `HashMap::get`). -/
def alookup {α β : Type} [DecidableEq α] : List (α × β) → α → Option β
  | [], _ => none
  | (k, v) :: rest, key => if k = key then some v else alookup rest key

/-- Association-list insert (models `HashMap::insert`): replace in place
if the key is present, otherwise append. -/
def ainsert {α β : Type} [DecidableEq α] : List (α × β) → α → β → List (α × β)
  | [], key, val => [(key, val)]
  | (k, v) :: rest, key, val =>
    if k = key then (key, val) :: rest else (k, v) :: ainsert rest key val

/-- Association-list removal (models `HashMap::remove`). -/
def aremove {α β : Type} [DecidableEq α] : List (α × β) → α → List (α × β)
  | [], _ => []
  | (k, v) :: rest, key =>
    if k = key then aremove rest key else (k, v) :: aremove rest key

/-- `Instance::add_attribute`. -/
def Instance.add_attribute (i : Instance) (attr : Symbol)
    (value : AttributeValue) : Instance :=
  { i with attributes := ainsert i.attributes attr value }

/-- `Instance::add_child`. -/
def Instance.add_child (i : Instance) (child : Symbol)
    (instance_ref : InstanceRef) : Instance :=
  { i with children := ainsert i.children child instance_ref }

/-- The instance store: `EvaluatorState.instances`. -/
abbrev Store := List (InstanceRef × Instance)

/-- `Evaluator::resolve_instance`. -/
def resolve_instance (s : Store) (r : InstanceRef) : Option Instance :=
  alookup s r

/-- `Evaluator::add_instance`. -/
def add_instance (s : Store) (r : InstanceRef) (i : Instance) : Store :=
  ainsert s r i

/-- `Evaluator::remove_instance` (the updated store; the removed value is
read with `resolve_instance` beforehand where the code needs it). -/
def remove_instance (s : Store) (r : InstanceRef) : Store :=
  aremove s r

/-- Endpoint-path transposition inside `clone_instance`: strip
`from_ref.instance_path` from the front of the endpoint's path if it is a
prefix, then re-prefix with `to_ref.instance_path`; the endpoint's module
becomes `to_ref.module`. -/
def transpose_ref (from_ref to_ref : InstanceRef) (r : InstanceRef) :
    InstanceRef :=
  let relative :=
    if from_ref.instance_path.isPrefixOf r.instance_path then
      r.instance_path.drop from_ref.instance_path.length
    else
      r.instance_path
  { module := to_ref.module, instance_path := to_ref.instance_path ++ relative }

/-- Connection transposition inside `clone_instance`. -/
def transpose_conn (from_ref to_ref : InstanceRef) (c : Connection) :
    Connection :=
  { left := transpose_ref from_ref to_ref c.left,
    right := transpose_ref from_ref to_ref c.right }

/-- The `for (k, v) in children` loop of `clone_instance`, parameterised by
the recursive entry point (`clone_instance` at one fuel less): clones each
child into `to_ref.instance_path ++ [k]` and collects the new children map. -/
def clone_children_w (clone : Store → InstanceRef → InstanceRef → Option Store) :
    Store → InstanceRef → List (Symbol × InstanceRef) →
    Option (Store × List (Symbol × InstanceRef))
  | s, _, [] => some (s, [])
  | s, to_ref, (k, v) :: rest =>
    let transposed_ref : InstanceRef :=
      { module := to_ref.module, instance_path := to_ref.instance_path ++ [k] }
    match clone s v transposed_ref with
    | none => none
    | some s' =>
      match clone_children_w clone s' to_ref rest with
      | none => none
      | some (s'', new_children) => some (s'', (k, transposed_ref) :: new_children)

/-- `Evaluator::clone_instance`, with fuel for the recursion over the
children graph (structural on fuel, so concrete clones compute). `none`
means the clone failed: missing source instance, or fuel exhausted — the
latter never happens at the fuel the callers supply, which bounds every
acyclic chain of children references. -/
def clone_instance : Nat → Store → InstanceRef → InstanceRef → Option Store
  | 0, _, _, _ => none
  | fuel + 1, s, from_ref, to_ref =>
    match resolve_instance s from_ref with
    | none => none
    | some from_instance =>
      match clone_children_w (clone_instance fuel) s to_ref from_instance.children with
      | none => none
      | some (s', new_children) =>
        let to_instance : Instance :=
          { type_ref := from_instance.type_ref,
            kind := from_instance.kind,
            attributes := from_instance.attributes,
            children := new_children,
            connections :=
              from_instance.connections.map (transpose_conn from_ref to_ref),
            reference_designator := none }
        some (add_instance s' to_ref to_instance)

/-- The children loop at a given fuel. -/
def clone_children (fuel : Nat) (s : Store) (to_ref : InstanceRef)
    (children : List (Symbol × InstanceRef)) :
    Option (Store × List (Symbol × InstanceRef)) :=
  clone_children_w (clone_instance fuel) s to_ref children

/-- `EvaluatorErrorKind`. -/
inductive EvaluatorErrorKind where
  | ImportPathNotFound
  | ImportCycle
  | ImportLoadFailed
  | ImportNotFound
  | UnexpectedStmt
  | TypeNotFound
  | InvalidAssignment
  | InvalidConnection
  | ParseError
  | DuplicateDeclaration
  | CyclicInheritance
  | Internal
deriving DecidableEq, Repr

/-- `EvaluatorError`, with the human-readable message dropped. A reported
diagnostic (`AnalyzerDiagnostic` of evaluator origin) carries the same data,
with its file given by `loc.file`, so the same type models both. -/
structure EvalError where
  kind : EvaluatorErrorKind
  loc : Loc
deriving DecidableEq, Repr

/-- Code-point lexicographic order on symbols (Rust's `Ord` on `String` is
byte-lexicographic over UTF-8, which coincides with code-point order). -/
def chars_le : List Char → List Char → Bool
  | [], _ => true
  | _ :: _, [] => false
  | c :: cs, d :: ds =>
    if c.toNat < d.toNat then true
    else if d.toNat < c.toNat then false
    else chars_le cs ds

/-- `a <= b` on symbols. -/
def symbol_le (a b : Symbol) : Bool := chars_le a.data b.data

/-- Insert into a sorted list (stable insertion sort step). -/
def insert_le {α : Type} (le : α → α → Bool) (x : α) : List α → List α
  | [] => [x]
  | y :: ys => if le x y then x :: y :: ys else y :: insert_le le x ys

/-- Stable sort (models `Vec::sort_by`; the inputs it is applied to have
pairwise distinct keys, for which every comparison sort agrees). -/
def sort_le {α : Type} (le : α → α → Bool) (l : List α) : List α :=
  l.foldr (insert_le le) []

/-- Sort a children map by child name, as `connect` does for the
Interface/Interface case. -/
def sort_children (children : List (Symbol × InstanceRef)) :
    List (Symbol × InstanceRef) :=
  sort_le (fun a b => symbol_le a.1 b.1) children

/-- The `let connections = match (left.kind, right.kind)` step of
`Evaluator::connect`: the list of connections a kind pair expands to, or
`none` for the two `InvalidAssignment` failures (interfaces of different
type, or a kind pairing that is not Port/Pin-compatible or
Interface/Interface). -/
def connection_set (left_instance right_instance : Instance)
    (source target : InstanceRef) : Option (List Connection) :=
  match left_instance.kind, right_instance.kind with
  | .Port, .Port | .Pin, .Pin | .Port, .Pin | .Pin, .Port =>
    some [{ left := source, right := target }]
  | .Interface, .Interface =>
    if left_instance.type_ref = right_instance.type_ref then
      some
        (((sort_children left_instance.children).zip
            (sort_children right_instance.children)).map
          (fun lr => { left := lr.1.2, right := lr.2.2 }))
    else
      none
  | _, _ => none

/-- Length of the longest common prefix of two paths (the
`zip / take_while / count` computation in `connect`). -/
def common_prefix_len : List Symbol → List Symbol → Nat
  | a :: as_, b :: bs =>
    if a = b then common_prefix_len as_ bs + 1 else 0
  | _, _ => 0

/-- The `for connection in connections` filing loop of `Evaluator::connect`:
checks that the endpoints share a root module, then appends the connection
either to the enclosing block's own instance (empty common prefix) or to the
instance at the longest shared path prefix. An error stops the loop but, as
in the source (`&mut` state), keeps the connections already filed. -/
def file_connections (source_module : ModuleRef) (stmt_loc : Loc) :
    Store → Instance → List Connection → Store × Instance × Option EvalError
  | s, inst, [] => (s, inst, none)
  | s, inst, connection :: rest =>
    if connection.left.module ≠ connection.right.module then
      (s, inst, some { kind := .InvalidAssignment, loc := stmt_loc })
    else
      let n := common_prefix_len connection.left.instance_path
        connection.right.instance_path
      if n = 0 then
        file_connections source_module stmt_loc s
          { inst with connections := inst.connections ++ [connection] } rest
      else
        let common_ancestor_ref : InstanceRef :=
          { module := source_module,
            instance_path := connection.left.instance_path.take n }
        match resolve_instance s common_ancestor_ref with
        | none => (s, inst, some { kind := .InvalidConnection, loc := stmt_loc })
        | some ancestor =>
          file_connections source_module stmt_loc
            (add_instance s common_ancestor_ref
              { ancestor with connections := ancestor.connections ++ [connection] })
            inst rest

/-- `Evaluator::connect`. `inst` is the checked-out enclosing block instance
(`&mut Instance` in the source); the returned store/instance reflect all
mutations made before a possible error. -/
def connect (s : Store) (inst : Instance)
    (source : InstanceRef) (source_loc : Loc)
    (target : InstanceRef) (target_loc : Loc)
    (stmt_loc : Loc) : Store × Instance × Option EvalError :=
  match resolve_instance s source with
  | none => (s, inst, some { kind := .InvalidConnection, loc := source_loc })
  | some left_instance =>
    match resolve_instance s target with
    | none => (s, inst, some { kind := .InvalidConnection, loc := target_loc })
    | some right_instance =>
      match connection_set left_instance right_instance source target with
      | none => (s, inst, some { kind := .InvalidAssignment, loc := stmt_loc })
      | some connections =>
        file_connections source.module stmt_loc s inst connections

/-- `BlockKind` from the parser. -/
inductive BlockKind where
  | Component
  | Module
  | Interface
deriving DecidableEq, Repr

/-- `Connectable`: one side of a `~` statement. -/
inductive Connectable where
  | port (parts : List Symbol)
  | pin (name : Symbol)
  | signal (name : Symbol)
deriving DecidableEq, Repr

/-- `Expr`, restricted to what the evaluator inspects. `binaryOp`'s payload
is elided: the evaluator only ever reaches it through the catch-all arm of
`From<&Expr> for AttributeValue`. `new` keeps the span of its type name. -/
inductive Expr where
  | string (s : String)
  | number (n : String)
  | boolean (b : Bool)
  | physical (display : String)
  | port (display : String)
  | new (type_name : Symbol) (type_loc : Loc)
  | binaryOp

/-- `Stmt`, paired with source spans where the evaluator reads them.
The statements the evaluator only ever matches with a wildcard
(`Attribute`, `Specialize`, `Unparsable`, ...) are represented by the
wildcard-equivalent `assertStmt`/`passStmt` constructors. A block's body
pairs each statement with the span of the whole statement. -/
inductive Stmt where
  | importStmt (from_path : String) (path_loc : Loc) (imports : List (Symbol × Loc))
  | depImport (name : Symbol) (name_loc : Loc) (from_path : String) (path_loc : Loc)
  | assign (target : List Symbol) (target_loc : Loc) (value : Expr) (value_loc : Loc)
  | connectStmt (left : Connectable) (left_loc : Loc)
      (right : Connectable) (right_loc : Loc)
  | block (kind : BlockKind) (name : Symbol) (name_loc : Loc)
      (parent : Option (Symbol × Loc)) (body : List (Stmt × Loc))
  | signal (name : Symbol)
  | pin (name : Symbol)
  | comment
  | parseError
  | passStmt
  | assertStmt

/-- `BlockDeclaration`: what `collect_block_declarations` keeps per block —
the declaration header data, its body, and the location of the whole
declaration statement. -/
structure BlockDeclaration where
  kind : BlockKind
  name : Symbol
  name_loc : Loc
  parent : Option (Symbol × Loc)
  body : List (Stmt × Loc)
  location : Loc

/-- `FileScope`: per-file symbol table. -/
abbrev FileScope := List (Symbol × ModuleRef)

/-- `FileScope::define`. -/
def FileScope.define (scope : FileScope) (symbol : Symbol)
    (module_ref : ModuleRef) : FileScope :=
  ainsert scope symbol module_ref

/-- `FileScope::resolve`. -/
def FileScope.resolve (scope : FileScope) (symbol : Symbol) :
    Option ModuleRef :=
  alookup scope symbol

/-- `From<&Expr> for AttributeValue`. The `Number` arm keeps the source
text (the source parses it to `f64`, falling back to the same text). -/
def expr_to_attribute_value : Expr → AttributeValue
  | .string s => .string s
  | .number n => .number n
  | .boolean b => .boolean b
  | .physical p => .physical p
  | .port p => .port p
  | _ => .string ""

/-- Fuel for `clone_instance` at a given store: any acyclic chain of
children references in `s` visits pairwise distinct instances, so its
length is at most `s.length`; on a cyclic chain the source diverges and
this model reports failure instead. -/
def clone_fuel (s : Store) : Nat := s.length + 1

/-- The shared left/right arm of the `Stmt::Connect` case of
`evaluate_block_stmt`: implicit `signal`/`pin` mentions create a fresh
Port/Pin child first, a dotted port reference resolves to a path under the
current block. -/
def resolve_connectable (s : Store) (inst : Instance) (module_ref : ModuleRef) :
    Connectable → Store × Instance × InstanceRef
  | .signal name =>
    let instance_ref : InstanceRef := { module := module_ref, instance_path := [name] }
    (add_instance s instance_ref Instance.port,
     inst.add_child name instance_ref, instance_ref)
  | .port parts =>
    (s, inst, { module := module_ref, instance_path := parts })
  | .pin name =>
    let instance_ref : InstanceRef := { module := module_ref, instance_path := [name] }
    (add_instance s instance_ref Instance.pin,
     inst.add_child name instance_ref, instance_ref)

/-- `Evaluator::evaluate_block_stmt`. `inst` is the checked-out enclosing
block instance; mutations made before an error are kept, as with `&mut`
state in the source (a failed `clone_instance`'s partial writes are dropped
here; nothing below depends on the store left by a failed clone). -/
def evaluate_block_stmt (s : Store) (scope : FileScope) (inst : Instance)
    (module_ref : ModuleRef) : Stmt → Loc → Store × Instance × Option EvalError
  | .assign target target_loc value value_loc, _stmt_loc =>
    let target_ref : InstanceRef := { module := module_ref, instance_path := target }
    match value with
    | .new type_name type_loc =>
      if target.length ≠ 1 then
        (s, inst, some { kind := .InvalidAssignment, loc := target_loc })
      else
        match scope.resolve type_name with
        | none => (s, inst, some { kind := .TypeNotFound, loc := type_loc })
        | some type_module_ref =>
          if (resolve_instance s target_ref).isSome then
            (s, inst, some { kind := .InvalidAssignment, loc := target_loc })
          else
            match clone_instance (clone_fuel s) s type_module_ref.root target_ref with
            | none => (s, inst, some { kind := .Internal, loc := target_loc })
            | some s' =>
              match target.getLast? with
              | none => (s, inst, some { kind := .InvalidAssignment, loc := target_loc })
              | some child_name =>
                (s', inst.add_child child_name target_ref, none)
    | _ =>
      match target.getLast? with
      | none => (s, inst, some { kind := .InvalidAssignment, loc := value_loc })
      | some attr_name =>
        let base := target.dropLast
        let attr_value := expr_to_attribute_value value
        if base.length = 0 then
          (s, inst.add_attribute attr_name attr_value, none)
        else
          let base_ref : InstanceRef := { module := module_ref, instance_path := base }
          match resolve_instance s base_ref with
          | none => (s, inst, some { kind := .InvalidAssignment, loc := value_loc })
          | some target_instance =>
            (add_instance s base_ref (target_instance.add_attribute attr_name attr_value),
             inst, none)
  | .signal name, _stmt_loc =>
    let signal_ref : InstanceRef := { module := module_ref, instance_path := [name] }
    (add_instance s signal_ref Instance.port, inst.add_child name signal_ref, none)
  | .pin name, _stmt_loc =>
    let pin_ref : InstanceRef := { module := module_ref, instance_path := [name] }
    (add_instance s pin_ref Instance.pin, inst.add_child name pin_ref, none)
  | .connectStmt left left_loc right right_loc, stmt_loc =>
    let (s1, inst1, left_ref) := resolve_connectable s inst module_ref left
    let (s2, inst2, right_ref) := resolve_connectable s1 inst1 module_ref right
    connect s2 inst2 left_ref left_loc right_ref right_loc stmt_loc
  | _, _ => (s, inst, none)

/-- The body loop of `evaluate_block`: every statement is evaluated; a
statement-level error is converted to a diagnostic and evaluation proceeds
with the next statement. -/
def evaluate_body (scope : FileScope) (module_ref : ModuleRef) :
    Store → Instance → List EvalError → List (Stmt × Loc) →
    Store × Instance × List EvalError
  | s, inst, diags, [] => (s, inst, diags)
  | s, inst, diags, (stmt, stmt_loc) :: rest =>
    match evaluate_block_stmt s scope inst module_ref stmt stmt_loc with
    | (s', inst', none) => evaluate_body scope module_ref s' inst' diags rest
    | (s', inst', some e) =>
      evaluate_body scope module_ref s' inst' (diags ++ [e]) rest

/-- `BlockKind` to `InstanceKind`, as in `evaluate_block`. -/
def instance_kind_of : BlockKind → InstanceKind
  | .Module => .Module
  | .Component => .Component
  | .Interface => .Interface

/-- `Evaluator::evaluate_block`: seed the block's root instance (clone the
parent's subtree or create it empty), check it out of the store, run the
body statements against it, reinsert it, and register the block's name in
the file scope. -/
def evaluate_block (s : Store) (diags : List EvalError) (scope : FileScope)
    (source_path : String) (block : BlockDeclaration) :
    Store × List EvalError × FileScope × Option EvalError :=
  let module_ref : ModuleRef :=
    { source_path := source_path, module_name := block.name }
  let kind := instance_kind_of block.kind
  let seeded : Option Store :=
    match block.parent with
    | some (parent, _) =>
      match scope.resolve parent with
      | none => none
      | some parent_module_ref =>
        clone_instance (clone_fuel s) s parent_module_ref.root module_ref.root
    | none => some (add_instance s module_ref.root (Instance.new module_ref kind))
  match block.parent, seeded with
  | some (parent, parent_loc), none =>
    (s, diags, scope,
     some { kind := if (scope.resolve parent).isNone then .TypeNotFound else .Internal,
            loc := parent_loc })
  | _, none => (s, diags, scope, some { kind := .Internal, loc := block.name_loc })
  | _, some s1 =>
    let instance_ref := module_ref.root
    match resolve_instance s1 instance_ref with
    | none => (s1, diags, scope, some { kind := .Internal, loc := block.name_loc })
    | some inst0 =>
      let s2 := remove_instance s1 instance_ref
      let inst1 : Instance := { inst0 with type_ref := module_ref }
      let (s3, inst2, diags') := evaluate_body scope module_ref s2 inst1 diags block.body
      (add_instance s3 instance_ref inst2, diags',
       scope.define block.name module_ref, none)

/-- `Evaluator::collect_block_declarations`: gather top-level block
declarations, dropping re-declarations of an already seen name with a
DuplicateDeclaration diagnostic. -/
def collect_block_declarations (diags : List EvalError) :
    List (Stmt × Loc) → List (Symbol × Loc) →
    List BlockDeclaration × List EvalError
  | [], _ => ([], diags)
  | (stmt, loc) :: rest, seen_names =>
    match stmt with
    | .block kind name name_loc parent body =>
      match alookup seen_names name with
      | some _ =>
        collect_block_declarations
          (diags ++ [{ kind := .DuplicateDeclaration, loc := loc }]) rest seen_names
      | none =>
        let (decls, diags') :=
          collect_block_declarations diags rest (ainsert seen_names name loc)
        ({ kind := kind, name := name, name_loc := name_loc, parent := parent,
           body := body, location := loc } :: decls, diags')
    | _ => collect_block_declarations diags rest seen_names

/-- The mutable state of `sort_blocks`: the output order, the permanent and
temporary marks, and the diagnostics reported so far. -/
structure SortState where
  sorted : List BlockDeclaration
  visited : List (Symbol × Bool)
  temp_mark : List (Symbol × Bool)
  diags : List EvalError

/-- The recursive `visit` helper of `sort_blocks`, with fuel: a node already
visited is skipped; a node reached while temporarily marked signals
CyclicInheritance and is abandoned; otherwise the named parent (if declared
in the same file) is visited first and the node is appended after it.
`none` = fuel exhausted, which `visit_ne_none` below rules out at the fuel
`sort_blocks` supplies. -/
def visit (declarations : List BlockDeclaration) :
    Nat → BlockDeclaration → SortState → Option SortState
  | 0, _, _ => none
  | fuel + 1, block, st =>
    if (alookup st.visited block.name).getD false then
      some st
    else if (alookup st.temp_mark block.name).getD false then
      some { st with
        diags := st.diags ++ [{ kind := .CyclicInheritance, loc := block.location }] }
    else
      let st1 := { st with temp_mark := ainsert st.temp_mark block.name true }
      let recursed : Option SortState :=
        match block.parent with
        | some (parent_name, _) =>
          match declarations.find? (fun d => d.name == parent_name) with
          | some parent => visit declarations fuel parent st1
          | none => some st1
        | none => some st1
      match recursed with
      | none => none
      | some st2 =>
        some { st2 with
          temp_mark := aremove st2.temp_mark block.name,
          visited := ainsert st2.visited block.name true,
          sorted := st2.sorted ++ [block] }

/-- The `for block in declarations` driver loop of `sort_blocks`. -/
def sort_blocks_go (declarations : List BlockDeclaration) (fuel : Nat) :
    List BlockDeclaration → SortState → Option SortState
  | [], st => some st
  | block :: rest, st =>
    if (alookup st.visited block.name).getD false then
      sort_blocks_go declarations fuel rest st
    else
      match visit declarations fuel block st with
      | none => none
      | some st' => sort_blocks_go declarations fuel rest st'

/-- Fuel that `sort_blocks` hands to `visit`: the depth of nested `visit`
calls is bounded by the number of declarations (each level temporarily
marks one more declared name). -/
def sort_fuel (declarations : List BlockDeclaration) : Nat :=
  declarations.length + 2

/-- `Evaluator::sort_blocks`: depth-first topological sort of a file's block
declarations by inheritance. Returns the order plus the diagnostics list
extended with any CyclicInheritance reports (`none` = fuel exhausted, ruled
out by `sort_blocks_ne_none`). -/
def sort_blocks (declarations : List BlockDeclaration) (diags : List EvalError) :
    Option (List BlockDeclaration × List EvalError) :=
  match sort_blocks_go declarations (sort_fuel declarations) declarations
      { sorted := [], visited := [], temp_mark := [], diags := diags } with
  | none => none
  | some st => some (st.sorted, st.diags)

/-- One registered source file: its canonical path and parsed AST. -/
structure Source where
  path : String
  ast : List (Stmt × Loc)

/-- The registered file map (`Evaluator.files`), in registration order. -/
abbrev Files := List (String × Source)

/-- `resolve_import_path`, modelled: import paths are taken as already
canonical and the filesystem visible to the evaluator is exactly the
registered file map, so resolution succeeds exactly for registered paths.
(The real resolver's relative/project-root search tiers are out of scope:
they walk the actual filesystem.) -/
def resolve_import_path (files : Files) (_ctx_path import_path : String) :
    Option String :=
  if (alookup files import_path).isSome then some import_path else none

/-- The fast-path loop of `evaluate_import`: for each requested symbol whose
resolved module already has a root instance in the store, bind it in the
file scope; any symbol that does not resolve this way forces a file load. -/
def import_fast_path (files : Files) (s : Store) (source_path from_path : String) :
    FileScope → Bool → List (Symbol × Loc) → FileScope × Bool
  | scope, load_file, [] => (scope, load_file)
  | scope, load_file, (symbol, _) :: rest =>
    match resolve_import_path files source_path from_path with
    | some resolved_path =>
      let module_ref : ModuleRef :=
        { source_path := resolved_path, module_name := symbol }
      match resolve_instance s module_ref.root with
      | some inst =>
        import_fast_path files s source_path from_path
          (scope.define symbol inst.type_ref) load_file rest
      | none => import_fast_path files s source_path from_path scope true rest
    | none => import_fast_path files s source_path from_path scope true rest

/-- The post-load loop of `evaluate_import`: bind each requested symbol from
the now-populated store, reporting ImportNotFound (not returning it) for a
symbol that still does not resolve. -/
def import_define_symbols (s : Store) (path : String) :
    FileScope → List EvalError → List (Symbol × Loc) → FileScope × List EvalError
  | scope, diags, [] => (scope, diags)
  | scope, diags, (symbol, symbol_loc) :: rest =>
    let instance_ref : InstanceRef :=
      ModuleRef.root { source_path := path, module_name := symbol }
    match resolve_instance s instance_ref with
    | some inst =>
      import_define_symbols s path (scope.define symbol inst.type_ref) diags rest
    | none =>
      import_define_symbols s path scope
        (diags ++ [{ kind := .ImportNotFound, loc := symbol_loc }]) rest

/-- `AnalyzerReporter::clear(path)`: drop the diagnostics of one file. -/
def clear_file (diags : List EvalError) (path : String) : List EvalError :=
  diags.filter (fun d => decide (¬ d.loc.file = path))

/-- Phase 5 of `evaluate_inner`: evaluate the blocks in dependency order,
converting block-level errors to diagnostics. -/
def evaluate_blocks (source_path : String) :
    FileScope → Store → List EvalError → List BlockDeclaration →
    Store × List EvalError × FileScope
  | scope, s, diags, [] => (s, diags, scope)
  | scope, s, diags, block :: rest =>
    match evaluate_block s diags scope source_path block with
    | (s', diags', scope', none) => evaluate_blocks source_path scope' s' diags' rest
    | (s', diags', scope', some e) =>
      evaluate_blocks source_path scope' s' (diags' ++ [e]) rest

/-- The body of `Evaluator::evaluate_import`, parameterised by the
recursive entry point `inner` (`evaluate_inner` at one fuel less). Fast
path first (all symbols memoized in the store ⇒ no load); then path
resolution, the import-cycle check against the in-progress stack, the
recursive evaluation of the imported file, and symbol binding. -/
def evaluate_import_w
    (inner : Source → List String → Store → List EvalError → Store × List EvalError)
    (files : Files) (source_path : String) (import_stack : List String)
    (scope : FileScope) (s : Store) (diags : List EvalError)
    (from_path : String) (path_loc : Loc)
    (import_symbols : List (Symbol × Loc)) :
    Store × List EvalError × FileScope × Option EvalError :=
  let fast := import_fast_path files s source_path from_path scope false import_symbols
  if ¬ fast.2 then
    (s, diags, fast.1, none)
  else
    match resolve_import_path files source_path from_path with
    | none => (s, diags, fast.1, some { kind := .ImportPathNotFound, loc := path_loc })
    | some path =>
      if import_stack.contains path then
        (s, diags, fast.1, some { kind := .ImportCycle, loc := path_loc })
      else
        match alookup files path with
        | none => (s, diags, fast.1, some { kind := .ImportLoadFailed, loc := path_loc })
        | some imported_source =>
          let r := inner imported_source (import_stack ++ [path]) s diags
          let defined := import_define_symbols r.1 path fast.1 r.2 import_symbols
          (r.1, defined.2, defined.1, none)

/-- The body of `Evaluator::evaluate_top_stmt`, parameterised like
`evaluate_import_w`. -/
def evaluate_top_stmt_w
    (inner : Source → List String → Store → List EvalError → Store × List EvalError)
    (files : Files) (source_path : String) (import_stack : List String)
    (scope : FileScope) (s : Store) (diags : List EvalError) :
    Stmt → Loc → Store × List EvalError × FileScope × Option EvalError
  | .importStmt from_path path_loc imports, _ =>
    evaluate_import_w inner files source_path import_stack scope s diags
      from_path path_loc imports
  | .depImport name name_loc from_path path_loc, _ =>
    evaluate_import_w inner files source_path import_stack scope s diags
      from_path path_loc [(name, name_loc)]
  | .block kind name name_loc parent body, loc =>
    evaluate_block s diags scope source_path
      { kind := kind, name := name, name_loc := name_loc, parent := parent,
        body := body, location := loc }
  | .comment, _ => (s, diags, scope, none)
  | .parseError, loc =>
    (s, diags ++ [{ kind := .ParseError, loc := loc }], scope, none)
  | _, loc => (s, diags, scope, some { kind := .UnexpectedStmt, loc := loc })

/-- Phase 4 of `evaluate_inner`: evaluate every non-block top-level
statement, converting statement-level errors to diagnostics. -/
def evaluate_top_stmts_w
    (inner : Source → List String → Store → List EvalError → Store × List EvalError)
    (files : Files) (source_path : String) (import_stack : List String) :
    FileScope → Store → List EvalError → List (Stmt × Loc) →
    Store × List EvalError × FileScope
  | scope, s, diags, [] => (s, diags, scope)
  | scope, s, diags, (stmt, loc) :: rest =>
    match stmt with
    | .block _ _ _ _ _ =>
      evaluate_top_stmts_w inner files source_path import_stack scope s diags rest
    | _ =>
      match evaluate_top_stmt_w inner files source_path import_stack scope s diags stmt loc with
      | (s', diags', scope', none) =>
        evaluate_top_stmts_w inner files source_path import_stack scope' s' diags' rest
      | (s', diags', scope', some e) =>
        evaluate_top_stmts_w inner files source_path import_stack scope' s' (diags' ++ [e]) rest

/-- `Evaluator::evaluate_inner`: clear the file's diagnostics, then the five
phases — collect declarations, sort them by inheritance, pre-register every
declaration in the file scope, evaluate non-block statements, evaluate the
blocks in sorted order. Structurally recursive on fuel through the import
chain (the recursion in the source is bounded by the cycle check: the stack
of imports only ever holds pairwise distinct registered paths). At fuel 0
(never reached at the fuel `evaluate` supplies) the file is skipped. -/
def evaluate_inner : Nat → Files → Source → List String → Store →
    List EvalError → Store × List EvalError
  | 0, _, _, _, s, diags => (s, diags)
  | fuel + 1, files, source, import_stack, s, diags =>
    let diags0 := clear_file diags source.path
    let (block_declarations, diags1) := collect_block_declarations diags0 source.ast []
    match sort_blocks block_declarations diags1 with
    | none => (s, diags1)
    | some (sorted_blocks, diags2) =>
      let scope : FileScope := block_declarations.foldl
        (fun sc d => sc.define d.name
          { source_path := source.path, module_name := d.name }) []
      let (s1, diags3, scope1) :=
        evaluate_top_stmts_w
          (fun src stack st dg => evaluate_inner fuel files src stack st dg)
          files source.path import_stack scope s diags2 source.ast
      let (s2, diags4, _) :=
        evaluate_blocks source.path scope1 s1 diags3 sorted_blocks
      (s2, diags4)

/-- `Evaluator::evaluate_import` at a given fuel. -/
def evaluate_import (fuel : Nat) (files : Files) (source_path : String)
    (import_stack : List String) (scope : FileScope) (s : Store)
    (diags : List EvalError) (from_path : String) (path_loc : Loc)
    (import_symbols : List (Symbol × Loc)) :
    Store × List EvalError × FileScope × Option EvalError :=
  evaluate_import_w (fun src stack st dg => evaluate_inner fuel files src stack st dg)
    files source_path import_stack scope s diags from_path path_loc import_symbols

/-- `Evaluator::evaluate_top_stmt` at a given fuel. -/
def evaluate_top_stmt (fuel : Nat) (files : Files) (source_path : String)
    (import_stack : List String) (scope : FileScope) (s : Store)
    (diags : List EvalError) (stmt : Stmt) (loc : Loc) :
    Store × List EvalError × FileScope × Option EvalError :=
  evaluate_top_stmt_w (fun src stack st dg => evaluate_inner fuel files src stack st dg)
    files source_path import_stack scope s diags stmt loc

/-- The `Evaluator` host object: registered files plus the state and
diagnostics left by the last pass. -/
structure Evaluator where
  files : Files
  state : Store
  diags : List EvalError

/-- Fuel handed to `evaluate_inner` by a full pass: the import stack only
ever holds pairwise distinct registered paths, so the recursion depth is
bounded by the number of registered files. -/
def evaluate_fuel (files : Files) : Nat := files.length + 1

/-- The `for source in files` loop of `Evaluator::evaluate`. -/
def evaluate_files (files : Files) : Store → List EvalError →
    List (String × Source) → Store × List EvalError
  | s, diags, [] => (s, diags)
  | s, diags, (_, source) :: rest =>
    let (s', diags') :=
      evaluate_inner (evaluate_fuel files) files source [] s diags
    evaluate_files files s' diags' rest

/-- `Evaluator::evaluate`: discard all prior state and diagnostics
(`reset`), then run `evaluate_inner` once per registered file with an
empty stack of imports. The registered file map is not changed (here every
loadable file is registered). -/
def Evaluator.evaluate (ev : Evaluator) : Evaluator :=
  { files := ev.files,
    state := (evaluate_files ev.files [] [] ev.files).1,
    diags := (evaluate_files ev.files [] [] ev.files).2 }

/-! ## Association-list lemmas -/

theorem alookup_ainsert_self {α β : Type} [DecidableEq α]
    (l : List (α × β)) (k : α) (v : β) : alookup (ainsert l k v) k = some v := by
  induction l with
  | nil => simp [ainsert, alookup]
  | cons p rest ih =>
    by_cases h : p.1 = k
    · simp [ainsert, alookup, h]
    · simp [ainsert, alookup, h, ih]

theorem alookup_ainsert_ne {α β : Type} [DecidableEq α]
    (l : List (α × β)) (k k' : α) (v : β) (h : k ≠ k') :
    alookup (ainsert l k v) k' = alookup l k' := by
  induction l with
  | nil => simp [ainsert, alookup, h]
  | cons p rest ih =>
    by_cases hp : p.1 = k
    · simp [ainsert, alookup, hp, h]
    · simp only [ainsert, alookup, if_neg hp]
      by_cases hp' : p.1 = k'
      · simp [alookup, hp']
      · simp [alookup, hp', ih]

theorem alookup_aremove_self {α β : Type} [DecidableEq α]
    (l : List (α × β)) (k : α) : alookup (aremove l k) k = none := by
  induction l with
  | nil => simp [aremove, alookup]
  | cons p rest ih =>
    by_cases h : p.1 = k
    · simpa [aremove, h] using ih
    · simpa [aremove, h, alookup] using ih

theorem alookup_aremove_ne {α β : Type} [DecidableEq α]
    (l : List (α × β)) (k k' : α) (h : k ≠ k') :
    alookup (aremove l k) k' = alookup l k' := by
  induction l with
  | nil => simp [aremove, alookup]
  | cons p rest ih =>
    by_cases hp : p.1 = k
    · have hpk' : ¬ p.1 = k' := by rw [hp]; exact h
      simp [aremove, hp, alookup, hpk', ih, h]
    · by_cases hp' : p.1 = k'
      · have h2 : ¬ k' = k := fun hh => h hh.symm
        simp [aremove, hp, alookup, hp', h2]
      · simp [aremove, hp, alookup, hp', ih]

/-! ## C10: `signal`/`pin` overwrite an existing child, `new` rejects it -/

/-- C10. In a block body, `signal n` (resp. `pin n`) succeeds with no
diagnostic even when an instance already exists at the block's child path
`n`, replacing the stored instance with a fresh empty Port (resp. Pin)
child registered under `n`; whereas `n = new Type` (with `Type` in scope)
fails with InvalidAssignment when an instance already exists at `n`. -/
theorem signal_overwrites_new_rejects
    (s : Store) (scope : FileScope) (inst : Instance) (module_ref : ModuleRef)
    (name : Symbol) (old : Instance) (stmt_loc target_loc value_loc ty_loc : Loc)
    (ty : Symbol) (ty_ref : ModuleRef)
    (h_old : resolve_instance s { module := module_ref, instance_path := [name] } = some old)
    (h_ty : scope.resolve ty = some ty_ref) :
    (let r := evaluate_block_stmt s scope inst module_ref (.signal name) stmt_loc
     let child_ref : InstanceRef := { module := module_ref, instance_path := [name] }
     r.2.2 = none ∧ resolve_instance r.1 child_ref = some Instance.port ∧
       alookup r.2.1.children name = some child_ref) ∧
    (let r := evaluate_block_stmt s scope inst module_ref (.pin name) stmt_loc
     let child_ref : InstanceRef := { module := module_ref, instance_path := [name] }
     r.2.2 = none ∧ resolve_instance r.1 child_ref = some Instance.pin ∧
       alookup r.2.1.children name = some child_ref) ∧
    evaluate_block_stmt s scope inst module_ref
        (.assign [name] target_loc (.new ty ty_loc) value_loc) stmt_loc =
      (s, inst, some { kind := .InvalidAssignment, loc := target_loc }) := by
  refine ⟨⟨rfl, ?_, ?_⟩, ⟨rfl, ?_, ?_⟩, ?_⟩
  · exact alookup_ainsert_self s _ _
  · exact alookup_ainsert_self inst.children _ _
  · exact alookup_ainsert_self s _ _
  · exact alookup_ainsert_self inst.children _ _
  · have h_some : (resolve_instance s
        { module := module_ref, instance_path := [name] }).isSome := by
      rw [h_old]; rfl
    simp [evaluate_block_stmt, h_ty, h_some]

/-- Concrete objects for the witness of `signal_overwrites_new_rejects`. -/
def cw_m : ModuleRef := { source_path := "f", module_name := "M" }

def cw_t : ModuleRef := { source_path := "f", module_name := "T" }

def cw_child : InstanceRef := { module := cw_m, instance_path := ["n"] }

def cw_old : Instance := Instance.new cw_t .Module

def cw_store : Store := [(cw_child, cw_old), (cw_t.root, Instance.new cw_t .Module)]

def cw_scope : FileScope := [("T", cw_t)]

def cw_inst : Instance := Instance.new cw_m .Module

def cw_loc : Loc := { file := "f", id := 0 }

/-- Witness for `signal_overwrites_new_rejects` at a concrete store holding
an existing child `n` of module `M`. -/
theorem signal_overwrites_new_rejects_witness :
    resolve_instance cw_store cw_child = some cw_old ∧
    cw_scope.resolve "T" = some cw_t ∧
    (let r := evaluate_block_stmt cw_store cw_scope cw_inst cw_m (.signal "n") cw_loc
     r.2.2 = none ∧ resolve_instance r.1 cw_child = some Instance.port ∧
       alookup r.2.1.children "n" = some cw_child) ∧
    evaluate_block_stmt cw_store cw_scope cw_inst cw_m
        (.assign ["n"] cw_loc (.new "T" cw_loc) cw_loc) cw_loc =
      (cw_store, cw_inst, some { kind := .InvalidAssignment, loc := cw_loc }) := by
  have h := signal_overwrites_new_rejects cw_store cw_scope cw_inst cw_m "n"
    cw_old cw_loc cw_loc cw_loc cw_loc "T" cw_t rfl rfl
  exact ⟨rfl, rfl, h.1, h.2.2⟩

/-! ## C6: invalid kind pairings add no connection -/

/-- The kind pairs `connect` accepts: Port/Port, Pin/Pin, Port/Pin,
Pin/Port, Interface/Interface. -/
def valid_kind_pair : InstanceKind → InstanceKind → Bool
  | .Port, .Port | .Pin, .Pin | .Port, .Pin | .Pin, .Port => true
  | .Interface, .Interface => true
  | _, _ => false

theorem connection_set_eq_none (left_instance right_instance : Instance)
    (source target : InstanceRef)
    (h : valid_kind_pair left_instance.kind right_instance.kind = false) :
    connection_set left_instance right_instance source target = none := by
  unfold connection_set
  cases hl : left_instance.kind <;> cases hr : right_instance.kind <;>
    simp_all [valid_kind_pair]

/-- C6. When both endpoints resolve but their kinds form none of the pairs
Port/Port, Pin/Pin, Port/Pin, Pin/Port, Interface/Interface (for example a
Module connected directly to a Port), `connect` returns an
InvalidAssignment error located at the statement and leaves both the
enclosing block instance and the store exactly as they were: zero
Connections are added anywhere. -/
theorem connect_kind_mismatch
    (s : Store) (inst : Instance) (source target : InstanceRef)
    (source_loc target_loc stmt_loc : Loc)
    (left_instance right_instance : Instance)
    (hl : resolve_instance s source = some left_instance)
    (hr : resolve_instance s target = some right_instance)
    (hk : valid_kind_pair left_instance.kind right_instance.kind = false) :
    connect s inst source source_loc target target_loc stmt_loc =
      (s, inst, some { kind := .InvalidAssignment, loc := stmt_loc }) := by
  simp [connect, hl, hr,
    connection_set_eq_none left_instance right_instance source target hk]

/-- Concrete store for the C6 witness: a Module instance and a Port child. -/
def c6_m : ModuleRef := { source_path := "f", module_name := "M" }

def c6_mod_ref : InstanceRef := { module := c6_m, instance_path := ["sub"] }

def c6_port_ref : InstanceRef := { module := c6_m, instance_path := ["p"] }

def c6_store : Store :=
  [(c6_mod_ref, Instance.new c6_m .Module), (c6_port_ref, Instance.port)]

/-- Witness for `connect_kind_mismatch`: connecting a Module-kind instance
directly to a Port yields InvalidAssignment and adds zero Connections. -/
theorem connect_kind_mismatch_witness :
    resolve_instance c6_store c6_mod_ref = some (Instance.new c6_m .Module) ∧
    resolve_instance c6_store c6_port_ref = some Instance.port ∧
    connect c6_store (Instance.new c6_m .Module) c6_mod_ref cw_loc
        c6_port_ref cw_loc cw_loc =
      (c6_store, Instance.new c6_m .Module,
       some { kind := .InvalidAssignment, loc := cw_loc }) := by
  refine ⟨rfl, rfl, ?_⟩
  exact connect_kind_mismatch c6_store (Instance.new c6_m .Module) c6_mod_ref
    c6_port_ref cw_loc cw_loc cw_loc (Instance.new c6_m .Module) Instance.port
    rfl rfl rfl

/-! ## C5: connections are filed at the nearest common ancestor -/

/-- C5. For a Port/Port connection (the single-connection path of
`connect`) whose endpoints share a root module: if the endpoints' paths
share no leading symbol the Connection is appended to the enclosing block's
own instance and the store is untouched; otherwise it is appended to the
connection list of the store instance at the longest shared path prefix
(and only that entry changes), and if that ancestor does not resolve the
call fails with an error and changes nothing. -/
theorem connect_common_ancestor
    (s : Store) (inst : Instance) (source target : InstanceRef)
    (source_loc target_loc stmt_loc : Loc)
    (left_instance right_instance : Instance)
    (hl : resolve_instance s source = some left_instance)
    (hr : resolve_instance s target = some right_instance)
    (hkl : left_instance.kind = .Port ∨ left_instance.kind = .Pin)
    (hkr : right_instance.kind = .Port ∨ right_instance.kind = .Pin)
    (hm : source.module = target.module) :
    (let n := common_prefix_len source.instance_path target.instance_path
     let c : Connection := { left := source, right := target }
     let ancestor_ref : InstanceRef :=
       { module := source.module, instance_path := source.instance_path.take n }
     (n = 0 →
       connect s inst source source_loc target target_loc stmt_loc =
         (s, { inst with connections := inst.connections ++ [c] }, none)) ∧
     (n ≠ 0 →
       (resolve_instance s ancestor_ref = none →
         connect s inst source source_loc target target_loc stmt_loc =
           (s, inst, some { kind := .InvalidConnection, loc := stmt_loc })) ∧
       (∀ ancestor, resolve_instance s ancestor_ref = some ancestor →
         connect s inst source source_loc target target_loc stmt_loc =
           (add_instance s ancestor_ref
             { ancestor with connections := ancestor.connections ++ [c] },
            inst, none)))) := by
  have hset : connection_set left_instance right_instance source target =
      some [{ left := source, right := target }] := by
    unfold connection_set
    rcases hkl with hkl | hkl <;> rcases hkr with hkr | hkr <;> rw [hkl, hkr]
  refine ⟨?_, ?_⟩
  · intro hn
    simp [connect, hl, hr, hset, file_connections, hm, hn]
  · intro hn
    refine ⟨?_, ?_⟩
    · intro hanc
      rw [hm] at hanc
      simp [connect, hl, hr, hset, file_connections, hm, hn, hanc]
    · intro ancestor hanc
      rw [hm] at hanc
      simp [connect, hl, hr, hset, file_connections, hm, hn, hanc, add_instance]

/-- Concrete store for the C5 witness: siblings `x.a` and `x.b` under `x`. -/
def c5_m : ModuleRef := { source_path := "f", module_name := "M" }

def c5_x : InstanceRef := { module := c5_m, instance_path := ["x"] }

def c5_xa : InstanceRef := { module := c5_m, instance_path := ["x", "a"] }

def c5_xb : InstanceRef := { module := c5_m, instance_path := ["x", "b"] }

def c5_x_inst : Instance :=
  { type_ref := c5_m, kind := .Module,
    attributes := [], children := [("a", c5_xa), ("b", c5_xb)],
    connections := [], reference_designator := none }

def c5_store : Store :=
  [(c5_x, c5_x_inst), (c5_xa, Instance.port), (c5_xb, Instance.port)]

/-- Witness for `connect_common_ancestor`: connecting `x.a` to `x.b` stores
the Connection under `x`, not under the enclosing block's instance. -/
theorem connect_common_ancestor_witness :
    resolve_instance c5_store c5_xa = some Instance.port ∧
    resolve_instance c5_store c5_xb = some Instance.port ∧
    common_prefix_len c5_xa.instance_path c5_xb.instance_path = 1 ∧
    resolve_instance c5_store c5_x = some c5_x_inst ∧
    connect c5_store (Instance.new c5_m .Module) c5_xa cw_loc c5_xb cw_loc cw_loc =
      (add_instance c5_store c5_x
        { c5_x_inst with
            connections := c5_x_inst.connections ++ [{ left := c5_xa, right := c5_xb }] },
       Instance.new c5_m .Module, none) := by
  refine ⟨rfl, rfl, rfl, rfl, ?_⟩
  have h := connect_common_ancestor c5_store (Instance.new c5_m .Module)
    c5_xa c5_xb cw_loc cw_loc cw_loc Instance.port Instance.port
    rfl rfl (Or.inl rfl) (Or.inl rfl) rfl
  exact h.2 (by decide) |>.2 c5_x_inst rfl

/-! ## C7: statement errors become diagnostics, evaluation continues -/

/-- C7. If a body statement errors, the error becomes a diagnostic (at the
location the error carries, inside that statement) and the body loop
continues with every later statement, starting from the state the failing
statement left behind; and for any block (here: any parentless block, whose
seeding cannot fail) the checked-out instance is reinserted into the store
once the body is fully processed, whatever diagnostics the body produced. -/
theorem evaluate_block_no_parent (s : Store) (diags : List EvalError)
    (scope : FileScope) (source_path : String) (block : BlockDeclaration)
    (hpar : block.parent = none) :
    evaluate_block s diags scope source_path block =
      (let module_ref : ModuleRef :=
        { source_path := source_path, module_name := block.name }
       let kind := instance_kind_of block.kind
       let s1 := add_instance s module_ref.root (Instance.new module_ref kind)
       let r := evaluate_body scope module_ref (remove_instance s1 module_ref.root)
         { Instance.new module_ref kind with type_ref := module_ref } diags block.body
       (add_instance r.1 module_ref.root r.2.1, r.2.2,
        scope.define block.name module_ref, none)) := by
  unfold evaluate_block
  rw [hpar]
  simp only [resolve_instance, add_instance, alookup_ainsert_self]

/-- C7. If a body statement errors, the error becomes a diagnostic (at the
location the error carries, inside that statement) and the body loop
continues with every later statement, starting from the state the failing
statement left behind; and for any block (here: any parentless block, whose
seeding cannot fail) the checked-out instance is reinserted into the store
once the body is fully processed, whatever diagnostics the body produced. -/
theorem block_errors_are_diagnostics
    (scope : FileScope) (module_ref : ModuleRef) (s s' : Store)
    (inst inst' : Instance) (diags : List EvalError) (e : EvalError)
    (stmt : Stmt) (stmt_loc : Loc) (rest : List (Stmt × Loc))
    (h : evaluate_block_stmt s scope inst module_ref stmt stmt_loc = (s', inst', some e)) :
    evaluate_body scope module_ref s inst diags ((stmt, stmt_loc) :: rest) =
      evaluate_body scope module_ref s' inst' (diags ++ [e]) rest ∧
    (∀ (diags0 : List EvalError) (source_path : String) (block : BlockDeclaration),
      block.parent = none →
      (evaluate_block s diags0 scope source_path block).2.2.2 = none ∧
      ∃ final,
        resolve_instance (evaluate_block s diags0 scope source_path block).1
          (ModuleRef.root { source_path := source_path, module_name := block.name }) =
          some final) := by
  constructor
  · simp [evaluate_body, h]
  · intro diags0 source_path block hpar
    rw [evaluate_block_no_parent s diags0 scope source_path block hpar]
    exact ⟨rfl, _, alookup_ainsert_self _ _ _⟩

/-- Concrete data for the C7 witness: a body whose first statement fails
(`x = new Missing` with an empty scope) followed by a `signal` statement
that must still run. -/
def c7_m : ModuleRef := { source_path := "f", module_name := "M" }

def c7_bad : Stmt := .assign ["x"] cw_loc (.new "Missing" cw_loc) cw_loc

def c7_block : BlockDeclaration :=
  { kind := .Module, name := "M", name_loc := cw_loc, parent := none,
    body := [(c7_bad, cw_loc), (.signal "a", cw_loc)], location := cw_loc }

/-- Witness for `block_errors_are_diagnostics`: the failing statement's
error is reported, the following `signal a` statement still runs, and the
block instance (with child `a`) is reinserted into the store. -/
theorem block_errors_are_diagnostics_witness :
    evaluate_block_stmt [] [] (Instance.new c7_m .Module) c7_m c7_bad cw_loc =
      ([], Instance.new c7_m .Module,
        some { kind := .TypeNotFound, loc := cw_loc }) ∧
    (evaluate_body [] c7_m [] (Instance.new c7_m .Module) []
        [(c7_bad, cw_loc), (.signal "a", cw_loc)] =
      evaluate_body [] c7_m [] (Instance.new c7_m .Module)
        [{ kind := .TypeNotFound, loc := cw_loc }] [(.signal "a", cw_loc)]) ∧
    (evaluate_block [] [] [] "f" c7_block).2.2.2 = none ∧
    (evaluate_block [] [] [] "f" c7_block).2.1 =
      [{ kind := .TypeNotFound, loc := cw_loc }] ∧
    resolve_instance (evaluate_block [] [] [] "f" c7_block).1 c7_m.root =
      some ((Instance.new c7_m .Module).add_child "a"
        { module := c7_m, instance_path := ["a"] }) := by
  have h := block_errors_are_diagnostics [] c7_m [] []
    (Instance.new c7_m .Module) (Instance.new c7_m .Module) []
    { kind := .TypeNotFound, loc := cw_loc } c7_bad cw_loc
    [(.signal "a", cw_loc)] rfl
  exact ⟨rfl, h.1, rfl, rfl, rfl⟩

/-! ## C9: evaluation is deterministic -/

/-- C9. Running the full evaluation pass twice with no registration change
in between yields identical results: `evaluate` discards all prior state
and diagnostics and rebuilds from the registered file map alone, so the
instance graph of the second pass — every `InstanceRef` key and the
instance stored under it — equals that of the first, and so do the
diagnostics. -/
theorem evaluate_deterministic (ev : Evaluator) :
    ev.evaluate.evaluate.state = ev.evaluate.state ∧
    (∀ r : InstanceRef,
      resolve_instance ev.evaluate.evaluate.state r =
        resolve_instance ev.evaluate.state r) ∧
    ev.evaluate.evaluate.diags = ev.evaluate.diags :=
  ⟨rfl, fun _ => rfl, rfl⟩

/-! ## C3: an inheritance two-cycle terminates with one diagnostic -/

/-- `module A from B: pass`, declared first. -/
def c3_A : BlockDeclaration :=
  { kind := .Module, name := "A", name_loc := { file := "f", id := 0 },
    parent := some ("B", { file := "f", id := 1 }), body := [],
    location := { file := "f", id := 2 } }

/-- `module B from A: pass`, declared second. -/
def c3_B : BlockDeclaration :=
  { kind := .Module, name := "B", name_loc := { file := "f", id := 3 },
    parent := some ("A", { file := "f", id := 4 }), body := [],
    location := { file := "f", id := 5 } }

/-- C3. On the two-declaration file `module A from B` + `module B from A`,
`sort_blocks` terminates (returns a result at the fuel it supplies, rather
than recursing forever), reports exactly one CyclicInheritance diagnostic,
and still produces an order containing both declarations. -/
theorem sort_blocks_cycle_example :
    sort_blocks [c3_A, c3_B] [] =
      some ([c3_B, c3_A],
        [{ kind := .CyclicInheritance, loc := c3_A.location }]) ∧
    (∀ result, sort_blocks [c3_A, c3_B] [] = some result →
      (result.2.filter (fun d => d.kind = .CyclicInheritance)).length = 1 ∧
      result.1.map (fun d => d.name) = ["B", "A"]) := by
  refine ⟨rfl, ?_⟩
  intro result h
  have hconc : sort_blocks [c3_A, c3_B] [] =
      some ([c3_B, c3_A],
        [{ kind := .CyclicInheritance, loc := c3_A.location }]) := rfl
  rw [Option.some.inj (h.symm.trans hconc)]
  exact ⟨rfl, rfl⟩

/-! ## C8: import cycle handling -/

/-- `f1` of the C8 scenario: imports `B` from `f2`, declares `module A`. -/
def c8_file1 : Source :=
  { path := "f1",
    ast := [
      (.importStmt "f2" { file := "f1", id := 1 } [("B", { file := "f1", id := 2 })],
        { file := "f1", id := 0 }),
      (.block .Module "A" { file := "f1", id := 4 } none [], { file := "f1", id := 3 })
    ] }

/-- `f2` of the C8 scenario: imports `A` from `f1`, declares `module B`. -/
def c8_file2 : Source :=
  { path := "f2",
    ast := [
      (.importStmt "f1" { file := "f2", id := 1 } [("A", { file := "f2", id := 2 })],
        { file := "f2", id := 0 }),
      (.block .Module "B" { file := "f2", id := 4 } none [], { file := "f2", id := 3 })
    ] }

/-- The registered file set of the C8 scenario. -/
def c8_files : Files := [("f1", c8_file1), ("f2", c8_file2)]

/-- Counterexample to C8 as stated: the memoization fast path runs before
the cycle check, so `evaluate_import` can find the resolved target path on
the in-progress import stack and still report nothing. Here `f2` is on the
stack, its requested symbol `B` is already in the store, and the import
returns without an ImportCycle (or any) error. -/
theorem import_cycle_memoized_counterexample :
    (let b : ModuleRef := { source_path := "f2", module_name := "B" }
     let s : Store := [(b.root, Instance.new b .Module)]
     resolve_import_path c8_files "f1" "f2" = some "f2" ∧
     ("f2" : String) ∈ ["f2"] ∧
     (evaluate_import 1 c8_files "f1" ["f2"] [] s [] "f2"
        { file := "f1", id := 1 } [("B", { file := "f1", id := 2 })]).2.2.2 = none) :=
  ⟨rfl, by decide, rfl⟩

/-- C8 (amended). `evaluate_import` returns an ImportCycle error exactly
when the memoization fast path fails to cover the import (at least one
requested symbol has no root instance under the resolved path) AND the
resolved target path is already on the in-progress import stack. And on
the concrete two-file scenario — each file importing a symbol from the
other — a full pass terminates with exactly one ImportCycle diagnostic
while both declarations are still built into the instance graph. -/
theorem import_cycle_detection :
    (∀ (fuel : Nat) (files : Files) (source_path : String)
       (import_stack : List String) (scope : FileScope) (s : Store)
       (diags : List EvalError) (from_path : String) (path_loc : Loc)
       (import_symbols : List (Symbol × Loc)),
      (∃ e, (evaluate_import fuel files source_path import_stack scope s diags
          from_path path_loc import_symbols).2.2.2 = some e ∧ e.kind = .ImportCycle) ↔
        ((import_fast_path files s source_path from_path scope false
            import_symbols).2 = true ∧
         ∃ path, resolve_import_path files source_path from_path = some path ∧
           path ∈ import_stack)) ∧
    (let ev := Evaluator.evaluate { files := c8_files, state := [], diags := [] }
     ev.diags = [{ kind := .ImportCycle, loc := { file := "f1", id := 1 } }] ∧
     (ev.diags.filter (fun d => d.kind = .ImportCycle)).length = 1 ∧
     resolve_instance ev.state
         (ModuleRef.root { source_path := "f1", module_name := "A" }) =
       some { Instance.new { source_path := "f1", module_name := "A" } .Module with
                type_ref := { source_path := "f1", module_name := "A" } } ∧
     resolve_instance ev.state
         (ModuleRef.root { source_path := "f2", module_name := "B" }) =
       some { Instance.new { source_path := "f2", module_name := "B" } .Module with
                type_ref := { source_path := "f2", module_name := "B" } }) := by
  constructor
  · intro fuel files source_path import_stack scope s diags from_path path_loc import_symbols
    unfold evaluate_import evaluate_import_w
    by_cases hload : (import_fast_path files s source_path from_path scope false
        import_symbols).2 = true
    · rcases hres : resolve_import_path files source_path from_path with _ | path
      · simp [hload, hres]
      · by_cases hstack : import_stack.contains path = true
        · have hmem : path ∈ import_stack := by
            simpa using hstack
          simp only [hload, hres]
          simp [hstack, hmem]
        · have hmem : ¬ path ∈ import_stack := by
            simpa using hstack
          simp only [hload, hres]
          rcases hfile : alookup files path with _ | srcf <;>
            simp [hstack, hmem, hfile]
    · simp [hload]
  · exact ⟨rfl, rfl, rfl, rfl⟩

/-! ## C4: Interface/Interface connections -/

theorem insert_le_perm {α : Type} (le : α → α → Bool) (x : α) (l : List α) :
    (insert_le le x l).Perm (x :: l) := by
  induction l with
  | nil => simp [insert_le]
  | cons y ys ih =>
    by_cases h : le x y
    · simp [insert_le, h]
    · have hstep : insert_le le x (y :: ys) = y :: insert_le le x ys := by
        simp [insert_le, h]
      rw [hstep]
      exact (ih.cons y).trans (List.Perm.swap x y ys)

theorem sort_le_perm {α : Type} (le : α → α → Bool) (l : List α) :
    (sort_le le l).Perm l := by
  induction l with
  | nil => simp [sort_le]
  | cons y ys ih =>
    have hstep : sort_le le (y :: ys) = insert_le le y (sort_le le ys) := rfl
    rw [hstep]
    exact (insert_le_perm le y (sort_le le ys)).trans (ih.cons y)

theorem sort_children_perm (children : List (Symbol × InstanceRef)) :
    (sort_children children).Perm children :=
  sort_le_perm _ children

/-- C4. When both endpoints of `connect` resolve to Interface-kind
instances: with different `type_ref`s the call fails with InvalidAssignment
and changes nothing; with equal `type_ref`s it produces one Connection per
zipped pair of the two children maps sorted by child name — as many
Connections as the smaller child count — and whenever the two sorted name
sequences agree (in particular whenever the instances have identical child
name sets, as equal types give), the i-th Connection joins the two
children registered under the same name. -/
theorem connect_interface_expansion
    (s : Store) (inst : Instance) (source target : InstanceRef)
    (source_loc target_loc stmt_loc : Loc)
    (left_instance right_instance : Instance)
    (hl : resolve_instance s source = some left_instance)
    (hr : resolve_instance s target = some right_instance)
    (hkl : left_instance.kind = .Interface)
    (hkr : right_instance.kind = .Interface) :
    (left_instance.type_ref ≠ right_instance.type_ref →
      connect s inst source source_loc target target_loc stmt_loc =
        (s, inst, some { kind := .InvalidAssignment, loc := stmt_loc })) ∧
    (left_instance.type_ref = right_instance.type_ref →
      ∃ pairs,
        connection_set left_instance right_instance source target = some pairs ∧
        pairs.length =
          min left_instance.children.length right_instance.children.length ∧
        ((sort_children left_instance.children).map Prod.fst =
            (sort_children right_instance.children).map Prod.fst →
          ∀ i, ∀ h : i < pairs.length, ∃ name lref rref,
            pairs[i] = { left := lref, right := rref } ∧
            (name, lref) ∈ left_instance.children ∧
            (name, rref) ∈ right_instance.children)) := by
  constructor
  · intro hne
    simp [connect, hl, hr, connection_set, hkl, hkr, hne]
  · intro heq
    refine ⟨((sort_children left_instance.children).zip
        (sort_children right_instance.children)).map
      (fun lr => { left := lr.1.2, right := lr.2.2 }), ?_, ?_, ?_⟩
    · simp [connection_set, hkl, hkr, heq]
    · rw [List.length_map, List.length_zip,
        (sort_children_perm left_instance.children).length_eq,
        (sort_children_perm right_instance.children).length_eq]
    · intro hnames i h
      rw [List.length_map, List.length_zip] at h
      have hil : i < (sort_children left_instance.children).length :=
        lt_of_lt_of_le h (Nat.min_le_left _ _)
      have hir : i < (sort_children right_instance.children).length :=
        lt_of_lt_of_le h (Nat.min_le_right _ _)
      refine ⟨(sort_children left_instance.children)[i].1,
        (sort_children left_instance.children)[i].2,
        (sort_children right_instance.children)[i].2, ?_, ?_, ?_⟩
      · simp
      · exact (sort_children_perm left_instance.children).mem_iff.mp
          (List.getElem_mem hil)
      · have hfst : (sort_children left_instance.children)[i].1 =
            (sort_children right_instance.children)[i].1 := by
          have := congrArg (fun l => l[i]?) hnames
          simpa [List.getElem?_map, List.getElem?_eq_getElem, hil, hir] using this
        rw [hfst]
        exact (sort_children_perm right_instance.children).mem_iff.mp
          (List.getElem_mem hir)

/-- Concrete data for the C4 witness: `interface IF: signal a; signal b`
instantiated twice (as `x` and `y`) inside module `M`. -/
def c4_m : ModuleRef := { source_path := "f", module_name := "M" }

def c4_if : ModuleRef := { source_path := "f", module_name := "IF" }

def c4_x : InstanceRef := { module := c4_m, instance_path := ["x"] }

def c4_y : InstanceRef := { module := c4_m, instance_path := ["y"] }

def c4_xa : InstanceRef := { module := c4_m, instance_path := ["x", "a"] }

def c4_xb : InstanceRef := { module := c4_m, instance_path := ["x", "b"] }

def c4_ya : InstanceRef := { module := c4_m, instance_path := ["y", "a"] }

def c4_yb : InstanceRef := { module := c4_m, instance_path := ["y", "b"] }

def c4_xi : Instance :=
  { type_ref := c4_if, kind := .Interface, attributes := [],
    children := [("a", c4_xa), ("b", c4_xb)], connections := [],
    reference_designator := none }

def c4_yi : Instance :=
  { type_ref := c4_if, kind := .Interface, attributes := [],
    children := [("a", c4_ya), ("b", c4_yb)], connections := [],
    reference_designator := none }

/-- A third interface instance of a different type, for the mismatch arm. -/
def c4_other : ModuleRef := { source_path := "f", module_name := "IF2" }

def c4_z : InstanceRef := { module := c4_m, instance_path := ["z"] }

def c4_zi : Instance :=
  { type_ref := c4_other, kind := .Interface, attributes := [],
    children := [], connections := [], reference_designator := none }

def c4_store : Store :=
  [(c4_x, c4_xi), (c4_y, c4_yi), (c4_z, c4_zi),
   (c4_xa, Instance.port), (c4_xb, Instance.port),
   (c4_ya, Instance.port), (c4_yb, Instance.port)]

def c4_block : Instance := Instance.new c4_m .Module

/-- Witness for `connect_interface_expansion`: the two same-typed `IF`
instances expand to exactly 2 Connections pairing equally named children
(a↔a, b↔b), which the full `connect` call files on the enclosing block
instance; connecting to a differently typed interface instead fails with
InvalidAssignment. -/
theorem connect_interface_expansion_witness :
    (∃ pairs, connection_set c4_xi c4_yi c4_x c4_y = some pairs ∧
      pairs.length = min c4_xi.children.length c4_yi.children.length ∧
      ((sort_children c4_xi.children).map Prod.fst =
          (sort_children c4_yi.children).map Prod.fst →
        ∀ i, ∀ h : i < pairs.length, ∃ name lref rref,
          pairs[i] = { left := lref, right := rref } ∧
          (name, lref) ∈ c4_xi.children ∧ (name, rref) ∈ c4_yi.children)) ∧
    connection_set c4_xi c4_yi c4_x c4_y =
      some [{ left := c4_xa, right := c4_ya }, { left := c4_xb, right := c4_yb }] ∧
    connect c4_store c4_block c4_x cw_loc c4_y cw_loc cw_loc =
      (c4_store,
       { c4_block with connections :=
          [{ left := c4_xa, right := c4_ya }, { left := c4_xb, right := c4_yb }] },
       none) ∧
    connect c4_store c4_block c4_x cw_loc c4_z cw_loc cw_loc =
      (c4_store, c4_block, some { kind := .InvalidAssignment, loc := cw_loc }) := by
  refine ⟨?_, rfl, rfl, ?_⟩
  · exact (connect_interface_expansion c4_store c4_block c4_x c4_y cw_loc cw_loc
      cw_loc c4_xi c4_yi rfl rfl rfl rfl).2 rfl
  · exact (connect_interface_expansion c4_store c4_block c4_x c4_z cw_loc cw_loc
      cw_loc c4_xi c4_zi rfl rfl rfl rfl).1 (by decide)

/-! ## C2: the block order is topological for acyclic inheritance -/

/-- A mark table entry read the way `sort_blocks` reads it
(`.get(name).copied().unwrap_or(false)`). -/
def marked (m : List (Symbol × Bool)) (x : Symbol) : Bool :=
  (alookup m x).getD false

/-- One step of the in-file inheritance relation: from a declared name to
its declared parent's name, when that parent is declared in the same file
(the only edges `visit` follows). -/
def inherit_step (decls : List BlockDeclaration) (x : Symbol) : Option Symbol :=
  match decls.find? (fun d => d.name == x) with
  | none => none
  | some d =>
    match d.parent with
    | none => none
    | some (p, _) =>
      if (decls.find? (fun e => e.name == p)).isSome then some p else none

/-- Iterated inheritance steps. -/
def step_iter (decls : List BlockDeclaration) : Nat → Symbol → Option Symbol
  | 0, x => some x
  | k + 1, x =>
    match inherit_step decls x with
    | none => none
    | some y => step_iter decls k y

/-- Decidable in-file inheritance cyclicity: some declared name returns to
itself in at most `decls.length` steps (a cycle's names are pairwise
distinct declared names, so no longer cycle can exist). -/
def has_inherit_cycle (decls : List BlockDeclaration) : Bool :=
  (decls.map (fun d => d.name)).any (fun x =>
    (List.range decls.length).any (fun k => step_iter decls (k + 1) x == some x))

theorem ainsert_of_lookup_none {α β : Type} [DecidableEq α]
    (l : List (α × β)) (k : α) (v : β) (h : alookup l k = none) :
    ainsert l k v = l ++ [(k, v)] := by
  induction l with
  | nil => simp [ainsert]
  | cons p rest ih =>
    by_cases hp : p.1 = k
    · simp [alookup, hp] at h
    · simp only [alookup, if_neg hp] at h
      simp [ainsert, hp, ih h]

theorem alookup_chain_of_mem (chain : List Symbol) (x : Symbol)
    (h : x ∈ chain) :
    alookup (chain.map (fun c => (c, true))) x = some true := by
  induction chain with
  | nil => simp at h
  | cons c rest ih =>
    by_cases hc : c = x
    · simp [alookup, hc]
    · have hx : x ∈ rest := by
        rcases List.mem_cons.mp h with h1 | h1
        · exact absurd h1.symm hc
        · exact h1
      simp [alookup, hc, ih hx]

theorem alookup_chain_of_not_mem (chain : List Symbol) (x : Symbol)
    (h : ¬ x ∈ chain) :
    alookup (chain.map (fun c => (c, true))) x = none := by
  induction chain with
  | nil => simp [alookup]
  | cons c rest ih =>
    have hc : ¬ c = x := fun hh => h (by simp [hh])
    have hr : ¬ x ∈ rest := fun hh => h (by simp [hh])
    simp [alookup, hc, ih hr]

theorem aremove_chain_last (chain : List Symbol) (b : Symbol)
    (h : ¬ b ∈ chain) :
    aremove ((chain ++ [b]).map (fun c => (c, true))) b =
      chain.map (fun c => (c, true)) := by
  induction chain with
  | nil => simp [aremove]
  | cons c rest ih =>
    have hc : ¬ c = b := fun hh => h (by simp [hh])
    have hr : ¬ b ∈ rest := fun hh => h (by simp [hh])
    simp only [List.cons_append, List.map_cons]
    simp only [aremove, if_neg hc]
    rw [ih hr]

theorem marked_ainsert_true (m : List (Symbol × Bool)) (k x : Symbol) :
    marked (ainsert m k true) x = if k = x then true else marked m x := by
  by_cases h : k = x
  · simp [marked, h, alookup_ainsert_self]
  · simp [marked, h, alookup_ainsert_ne m k x true h]

/-- Inserting an unmarked declared name shrinks the unmarked count by one. -/
theorem filter_count_insert (l : List Symbol) (m : List (Symbol × Bool))
    (x : Symbol) (hx : x ∈ l) (hnd : l.Nodup) (hm : marked m x = false) :
    (l.filter (fun y => !marked (ainsert m x true) y)).length + 1 =
      (l.filter (fun y => !marked m y)).length := by
  induction l with
  | nil => simp at hx
  | cons c rest ih =>
    rcases List.nodup_cons.mp hnd with ⟨hcr, hndr⟩
    rcases List.mem_cons.mp hx with hxc | hxr
    · have hrest : List.filter (fun y => !marked (ainsert m x true) y) rest =
          List.filter (fun y => !marked m y) rest := by
        apply List.filter_congr
        intro y hy
        have hyx : ¬ x = y := fun hh => (hxc ▸ hcr) (hh ▸ hy)
        simp [marked_ainsert_true, hyx]
      have h1 : (!marked (ainsert m x true) c) = false := by
        simp [marked_ainsert_true, hxc]
      have h2 : (!marked m c) = true := by
        rw [hxc] at hm
        simp [hm]
      simp only [List.filter_cons, h1, h2]
      simp [hrest]
    · have hcx : ¬ x = c := fun hh => hcr (hh ▸ hxr)
      have hmc : (!marked (ainsert m x true) c) = (!marked m c) := by
        simp [marked_ainsert_true, hcx]
      by_cases hc : (!marked m c) = true
      · simp only [List.filter_cons, hmc, hc, if_true, List.length_cons]
        have := ih hxr hndr
        omega
      · simp only [List.filter_cons, hmc, hc]
        exact ih hxr hndr

/-- In a file with pairwise distinct declared names, the name determines
the declaration. -/
theorem name_injective (decls : List BlockDeclaration)
    (hnd : (decls.map (fun d => d.name)).Nodup)
    (d d' : BlockDeclaration) (hd : d ∈ decls) (hd' : d' ∈ decls)
    (h : d.name = d'.name) : d = d' := by
  induction decls with
  | nil => simp at hd
  | cons c rest ih =>
    rcases List.nodup_cons.mp hnd with ⟨hcr, hndr⟩
    rcases List.mem_cons.mp hd with hdc | hdr <;>
      rcases List.mem_cons.mp hd' with hdc' | hdr'
    · rw [hdc, hdc']
    · exfalso
      apply hcr
      have h1 : d'.name ∈ List.map (fun d => d.name) rest :=
        List.mem_map.mpr ⟨d', hdr', rfl⟩
      simpa [← hdc, h] using h1
    · exfalso
      apply hcr
      have h1 : d.name ∈ List.map (fun d => d.name) rest :=
        List.mem_map.mpr ⟨d, hdr, rfl⟩
      simpa [← hdc', ← h] using h1
    · exact ih hndr hdr hdr'

theorem find_name_self (decls : List BlockDeclaration)
    (hnd : (decls.map (fun d => d.name)).Nodup)
    (b : BlockDeclaration) (hb : b ∈ decls) :
    decls.find? (fun d => d.name == b.name) = some b := by
  rcases hfind : decls.find? (fun d => d.name == b.name) with _ | d
  · exact absurd (List.find?_eq_none.mp hfind b hb) (by simp)
  · have hmem := List.mem_of_find?_eq_some hfind
    have hname : d.name = b.name := by
      have := List.find?_some hfind
      simpa using this
    rw [name_injective decls hnd d b hmem hb hname] at hfind
    exact hfind

theorem find_isSome_of_name_mem (decls : List BlockDeclaration) (p : Symbol)
    (h : p ∈ decls.map (fun d => d.name)) :
    (decls.find? (fun e => e.name == p)).isSome := by
  rcases List.mem_map.mp h with ⟨d, hd, hname⟩
  rw [List.find?_isSome]
  exact ⟨d, hd, by simp [hname]⟩

/-- The invariant `visit` maintains on the sort state: the visited marks are
exactly the names already output; the output consists of declarations of
this file, no name twice; and every output declaration's in-file parent
appears strictly earlier in the output. -/
def SortInv (decls : List BlockDeclaration) (st : SortState) : Prop :=
  (∀ x, marked st.visited x = true ↔ x ∈ st.sorted.map (fun d => d.name)) ∧
  (∀ d ∈ st.sorted, d ∈ decls) ∧
  (st.sorted.map (fun d => d.name)).Nodup ∧
  (∀ i, ∀ hi : i < st.sorted.length, ∀ p pl,
    (st.sorted[i]).parent = some (p, pl) →
    p ∈ decls.map (fun d => d.name) →
    ∃ j, ∃ hj : j < st.sorted.length, j < i ∧ (st.sorted[j]).name = p)

theorem step_iter_extend (decls : List BlockDeclaration) (n : Nat)
    (x y z : Symbol) (h1 : step_iter decls n x = some y)
    (h2 : inherit_step decls y = some z) :
    step_iter decls (n + 1) x = some z := by
  induction n generalizing x with
  | zero =>
    simp only [step_iter] at h1
    injection h1 with hxy
    subst hxy
    simp [step_iter, h2]
  | succ n ih =>
    rcases hstep : inherit_step decls x with _ | w
    · simp [step_iter, hstep] at h1
    · simp only [step_iter, hstep] at h1 ⊢
      exact ih w h1

theorem no_cycle_step (decls : List BlockDeclaration)
    (hacyc : has_inherit_cycle decls = false) (x : Symbol)
    (hx : x ∈ decls.map (fun d => d.name)) (k : Nat)
    (hk : k + 1 ≤ decls.length)
    (hstep : step_iter decls (k + 1) x = some x) : False := by
  have : has_inherit_cycle decls = true := by
    unfold has_inherit_cycle
    rw [List.any_eq_true]
    refine ⟨x, hx, ?_⟩
    rw [List.any_eq_true]
    exact ⟨k, List.mem_range.mpr (by omega), by simp [hstep]⟩
  rw [hacyc] at this
  exact Bool.false_ne_true this

theorem chain_length_le (chain : List Symbol) (names : List Symbol)
    (hnd : chain.Nodup) (hsub : ∀ c ∈ chain, c ∈ names) :
    chain.length ≤ names.length :=
  (hnd.subperm (fun c hc => hsub c hc)).length_le

/-- The postlude of `visit` (unmark, mark visited, append) preserves the
invariant and, given the recursion's postconditions for the parent subcall,
establishes `visit`'s postconditions for the node itself. -/
theorem visit_wrap (decls : List BlockDeclaration)
    (block : BlockDeclaration) (st st2 : SortState) (chain : List Symbol)
    (tail2 : List BlockDeclaration)
    (hblock : block ∈ decls)
    (hbchain : ¬ block.name ∈ chain)
    (hbvis : marked st.visited block.name = false)
    (htemp : st.temp_mark = chain.map (fun c => (c, true)))
    (htemp2 : st2.temp_mark = (chain ++ [block.name]).map (fun c => (c, true)))
    (hinv : SortInv decls st)
    (hinv2 : SortInv decls st2)
    (hsorted2 : st2.sorted = st.sorted ++ tail2)
    (htail2 : ∀ x ∈ tail2.map (fun d => d.name),
      marked ((chain ++ [block.name]).map (fun c => (c, true))) x = false)
    (hmono2 : ∀ x, marked st.visited x = true → marked st2.visited x = true)
    (hparent : ∀ p pl, block.parent = some (p, pl) →
      p ∈ decls.map (fun d => d.name) → p ∈ st2.sorted.map (fun d => d.name)) :
    (aremove st2.temp_mark block.name = st.temp_mark ∧
     SortInv decls
       { st2 with temp_mark := aremove st2.temp_mark block.name,
                  visited := ainsert st2.visited block.name true,
                  sorted := st2.sorted ++ [block] } ∧
     (∃ tail, st2.sorted ++ [block] = st.sorted ++ tail ∧
       ∀ x ∈ tail.map (fun d => d.name), marked st.temp_mark x = false) ∧
     block.name ∈ (st2.sorted ++ [block]).map (fun d => d.name) ∧
     (∀ x, marked st.visited x = true →
       marked (ainsert st2.visited block.name true) x = true)) := by
  have hb_not_sorted2 : ¬ block.name ∈ st2.sorted.map (fun d => d.name) := by
    intro hmem
    rw [hsorted2, List.map_append, List.mem_append] at hmem
    rcases hmem with hmem | hmem
    · exact absurd ((hinv.1 block.name).mpr hmem) (by simp [hbvis])
    · have := htail2 block.name hmem
      rw [marked, alookup_chain_of_mem (chain ++ [block.name]) block.name
        (by simp)] at this
      simp at this
  refine ⟨?_, ⟨?_, ?_, ?_, ?_⟩, ?_, ?_, ?_⟩
  · rw [htemp2, htemp]
    exact aremove_chain_last chain block.name hbchain
  · -- visited marks are exactly the output names
    intro x
    rw [marked_ainsert_true]
    by_cases hx : block.name = x
    · subst hx
      simp
    · simp only [if_neg hx]
      rw [hinv2.1 x, List.map_append, List.mem_append]
      constructor
      · exact fun h => Or.inl h
      · intro h
        rcases h with h | h
        · exact h
        · simp at h
          exact absurd h.symm hx
  · -- output declarations come from this file
    intro d hd
    rcases List.mem_append.mp hd with hd | hd
    · exact hinv2.2.1 d hd
    · rw [List.mem_singleton.mp hd]
      exact hblock
  · -- no output name twice
    rw [List.map_append]
    refine List.Nodup.append hinv2.2.2.1 (by simp) ?_
    intro a ha hb2
    simp at hb2
    rw [hb2] at ha
    exact hb_not_sorted2 ha
  · -- parents appear strictly earlier
    intro i hi p pl hpar hpdecl
    rw [List.length_append, List.length_cons, List.length_nil] at hi
    by_cases hilt : i < st2.sorted.length
    · have hpar' : (st2.sorted[i]).parent = some (p, pl) := by
        rw [List.getElem_append_left hilt] at hpar
        exact hpar
      obtain ⟨j, hj, hjlt, hname⟩ := hinv2.2.2.2 i hilt p pl hpar' hpdecl
      refine ⟨j, by simp only [List.length_append, List.length_cons,
        List.length_nil]; omega, hjlt, ?_⟩
      rw [List.getElem_append_left hj]
      exact hname
    · have hieq : i = st2.sorted.length := by omega
      have helem : (st2.sorted ++ [block])[i] = block := by
        subst hieq
        exact List.getElem_concat_length st2.sorted block st2.sorted.length rfl _
      rw [helem] at hpar
      have hmem := hparent p pl hpar hpdecl
      rcases List.mem_map.mp hmem with ⟨d', hd', hdname⟩
      rcases List.mem_iff_getElem.mp hd' with ⟨j, hjlen, hdj⟩
      refine ⟨j, by simp only [List.length_append, List.length_cons,
        List.length_nil]; omega, by omega, ?_⟩
      rw [List.getElem_append_left hjlen, hdj]
      exact hdname
  · -- the output only grows, and only by temp-unmarked names
    refine ⟨tail2 ++ [block], ?_, ?_⟩
    · rw [hsorted2, List.append_assoc]
    · intro x hx
      rw [List.map_append, List.mem_append] at hx
      rcases hx with hx | hx
      · have h1 := htail2 x hx
        rw [htemp]
        by_cases hxin : x ∈ chain
        · exfalso
          rw [marked, alookup_chain_of_mem _ _ (by simp [hxin])] at h1
          simp at h1
        · rw [marked, alookup_chain_of_not_mem _ _ hxin]
          rfl
      · simp at hx
        rw [hx, htemp, marked, alookup_chain_of_not_mem _ _ hbchain]
        rfl
  · simp
  · intro x hmark
    rw [marked_ainsert_true]
    by_cases hx : block.name = x
    · simp [hx]
    · simp only [if_neg hx]
      exact hmono2 x hmark

/-- `visit` unfolded on a node that is neither visited nor temp-marked. -/
theorem visit_succ_eq (decls : List BlockDeclaration) (fuel : Nat)
    (block : BlockDeclaration) (st : SortState)
    (hvis : ¬ ((alookup st.visited block.name).getD false = true))
    (htm : ¬ ((alookup st.temp_mark block.name).getD false = true)) :
    visit decls (fuel + 1) block st =
      (match (match block.parent with
              | some (parent_name, _) =>
                match decls.find? (fun (d : BlockDeclaration) => d.name == parent_name) with
                | some parent =>
                  visit decls fuel parent
                    { st with temp_mark := ainsert st.temp_mark block.name true }
                | none =>
                  some { st with temp_mark := ainsert st.temp_mark block.name true }
              | none =>
                some { st with temp_mark := ainsert st.temp_mark block.name true }) with
       | none => none
       | some st2 =>
         some { st2 with temp_mark := aremove st2.temp_mark block.name,
                         visited := ainsert st2.visited block.name true,
                         sorted := st2.sorted ++ [block] }) := by
  simp only [visit]
  rw [if_neg hvis, if_neg htm]

/-- The full specification of `visit` on acyclic inputs: it returns (never
exhausting its fuel), restores the temporary marks, preserves the
invariant, only appends to the output — never a temp-marked name — and
leaves its node in the output. -/
theorem visit_spec (decls : List BlockDeclaration)
    (hnd : (decls.map (fun d => d.name)).Nodup)
    (hacyc : has_inherit_cycle decls = false) :
    ∀ (fuel : Nat) (block : BlockDeclaration) (st : SortState) (chain : List Symbol),
      block ∈ decls →
      st.temp_mark = chain.map (fun c => (c, true)) →
      chain.Nodup →
      (∀ c ∈ chain, c ∈ decls.map (fun d => d.name)) →
      (∀ i, ∀ hi : i < chain.length,
        step_iter decls (chain.length - i) chain[i] = some block.name) →
      SortInv decls st →
      ((decls.map (fun d => d.name)).filter
          (fun x => !marked st.temp_mark x)).length + 1 ≤ fuel →
      ∃ st', visit decls fuel block st = some st' ∧
        st'.temp_mark = st.temp_mark ∧
        SortInv decls st' ∧
        (∃ tail, st'.sorted = st.sorted ++ tail ∧
          ∀ x ∈ tail.map (fun d => d.name), marked st.temp_mark x = false) ∧
        block.name ∈ st'.sorted.map (fun d => d.name) ∧
        (∀ x, marked st.visited x = true → marked st'.visited x = true) := by
  intro fuel
  induction fuel with
  | zero =>
    intro block st chain _ _ _ _ _ _ hfuel
    exact absurd hfuel (by omega)
  | succ fuel ih =>
    intro block st chain hblock htemp hchain_nd hchain_names hchain_step hinv hfuel
    by_cases hvis : (alookup st.visited block.name).getD false = true
    · refine ⟨st, ?_, rfl, hinv, ⟨[], by simp, by simp⟩, ?_, fun x h => h⟩
      · simp [visit, hvis]
      · exact (hinv.1 block.name).mp hvis
    · by_cases htm : (alookup st.temp_mark block.name).getD false = true
      · exfalso
        have hbchain : block.name ∈ chain := by
          by_contra hnot
          rw [htemp, alookup_chain_of_not_mem chain block.name hnot] at htm
          simp at htm
        rcases List.mem_iff_getElem.mp hbchain with ⟨i, hi, hchain_i⟩
        have hstep := hchain_step i hi
        rw [hchain_i] at hstep
        have hlen : chain.length ≤ decls.length := by
          have := chain_length_le chain (decls.map (fun d => d.name))
            hchain_nd hchain_names
          simpa using this
        obtain ⟨k, hk⟩ : ∃ k, chain.length - i = k + 1 :=
          ⟨chain.length - i - 1, by omega⟩
        rw [hk] at hstep
        exact no_cycle_step decls hacyc block.name
          (List.mem_map_of_mem _ hblock) k (by omega) hstep
      · -- fresh node
        have hbchain : ¬ block.name ∈ chain := by
          intro hmem
          rw [htemp, alookup_chain_of_mem chain block.name hmem] at htm
          simp at htm
        have hbvis : marked st.visited block.name = false := by
          unfold marked
          simpa using hvis
        have halookup : alookup st.temp_mark block.name = none := by
          rw [htemp]
          exact alookup_chain_of_not_mem chain block.name hbchain
        have htemp1 : ainsert st.temp_mark block.name true =
            (chain ++ [block.name]).map (fun c => (c, true)) := by
          rw [ainsert_of_lookup_none _ _ _ halookup, htemp, List.map_append]
          rfl
        have hmfalse : marked st.temp_mark block.name = false := by
          simp [marked, halookup]
        have hcount : ((decls.map (fun d => d.name)).filter
            (fun x => !marked (ainsert st.temp_mark block.name true) x)).length + 1
              ≤ fuel := by
          have := filter_count_insert (decls.map (fun d => d.name))
            st.temp_mark block.name (List.mem_map_of_mem _ hblock) hnd hmfalse
          omega
        rcases hpar : block.parent with _ | ⟨p, pl⟩
        · -- no parent: the recursion is skipped
          have hw := visit_wrap decls block st
            { st with temp_mark := ainsert st.temp_mark block.name true }
            chain [] hblock hbchain hbvis htemp htemp1 hinv hinv
            (by simp) (by simp) (fun x h => h)
            (by intro p' pl' hp _; rw [hpar] at hp; exact absurd hp (by simp))
          refine ⟨_, ?_, hw.1, hw.2.1, hw.2.2.1, hw.2.2.2.1, hw.2.2.2.2⟩
          rw [visit_succ_eq decls fuel block st hvis htm]
          simp only [hpar]
        · rcases hfind : decls.find? (fun d => d.name == p) with _ | parentd
          · -- parent named but not declared in this file
            have hw := visit_wrap decls block st
              { st with temp_mark := ainsert st.temp_mark block.name true }
              chain [] hblock hbchain hbvis htemp htemp1 hinv hinv
              (by simp) (by simp) (fun x h => h)
              (by intro p' pl' hp hpmem
                  rw [hpar] at hp
                  injection hp with hpp
                  injection hpp with hp1 _
                  rw [← hp1] at hpmem
                  have := find_isSome_of_name_mem decls p hpmem
                  rw [hfind] at this
                  simp at this)
            refine ⟨_, ?_, hw.1, hw.2.1, hw.2.2.1, hw.2.2.2.1, hw.2.2.2.2⟩
            rw [visit_succ_eq decls fuel block st hvis htm]
            simp only [hpar, hfind]
          · -- recurse into the declared parent first
            have hpd_mem : parentd ∈ decls := List.mem_of_find?_eq_some hfind
            have hpd_name : parentd.name = p := by
              have := List.find?_some hfind
              simpa using this
            have hstep_b : inherit_step decls block.name = some p := by
              simp [inherit_step, find_name_self decls hnd block hblock, hpar, hfind]
            have hchain_nd' : (chain ++ [block.name]).Nodup := by
              refine List.Nodup.append hchain_nd (by simp) ?_
              intro a ha hb2
              simp at hb2
              rw [hb2] at ha
              exact hbchain ha
            have hchain_names' : ∀ c ∈ chain ++ [block.name],
                c ∈ decls.map (fun d => d.name) := by
              intro c hc
              rcases List.mem_append.mp hc with hc | hc
              · exact hchain_names c hc
              · simp at hc
                rw [hc]
                exact List.mem_map_of_mem _ hblock
            have hchain_step' : ∀ i, ∀ hi : i < (chain ++ [block.name]).length,
                step_iter decls ((chain ++ [block.name]).length - i)
                  (chain ++ [block.name])[i] = some parentd.name := by
              intro i hi
              rw [List.length_append, List.length_cons, List.length_nil] at hi ⊢
              by_cases hlt : i < chain.length
              · have hib : i < (chain ++ [block.name]).length := by
                  rw [List.length_append, List.length_cons, List.length_nil]
                  omega
                have helem : (chain ++ [block.name])[i] = chain[i] :=
                  List.getElem_append_left hlt
                rw [helem]
                have hsub : chain.length + 1 - i = (chain.length - i) + 1 := by omega
                rw [hsub, hpd_name]
                exact step_iter_extend decls (chain.length - i) chain[i]
                  block.name p (hchain_step i hlt) hstep_b
              · have hieq : i = chain.length := by omega
                subst hieq
                have hib : chain.length < (chain ++ [block.name]).length := by
                  rw [List.length_append, List.length_cons, List.length_nil]
                  omega
                have helem : (chain ++ [block.name])[chain.length] = block.name :=
                  List.getElem_concat_length chain block.name chain.length rfl _
                rw [helem]
                have hsub : chain.length + 1 - chain.length = 1 := by omega
                rw [hsub, hpd_name]
                simp [step_iter, hstep_b]
            have hrec := ih parentd
              { st with temp_mark := ainsert st.temp_mark block.name true }
              (chain ++ [block.name]) hpd_mem htemp1 hchain_nd' hchain_names'
              hchain_step' hinv hcount
            rcases hrec with ⟨st2, hvisit2, htemp2, hinv2, ⟨tail2, hsorted2, htail2⟩,
              hpmem2, hmono2⟩
            have hw := visit_wrap decls block st st2 chain tail2
              hblock hbchain hbvis htemp (by rw [htemp2, htemp1]) hinv hinv2
              hsorted2 (by rw [← htemp1]; exact htail2) hmono2
              (by intro p' pl' hp hpmem
                  rw [hpar] at hp
                  injection hp with hpp
                  injection hpp with hp1 _
                  rw [← hp1, ← hpd_name]
                  exact hpmem2)
            refine ⟨_, ?_, hw.1, hw.2.1, hw.2.2.1, hw.2.2.2.1, hw.2.2.2.2⟩
            rw [visit_succ_eq decls fuel block st hvis htm]
            simp only [hpar, hfind, hvisit2]

/-- The driver loop of `sort_blocks` on acyclic inputs: every declaration
it iterates over ends up in the output, невidated state only grows. -/
theorem sort_blocks_go_spec (decls : List BlockDeclaration)
    (hnd : (decls.map (fun d => d.name)).Nodup)
    (hacyc : has_inherit_cycle decls = false) :
    ∀ (iter : List BlockDeclaration) (st : SortState),
      (∀ b ∈ iter, b ∈ decls) →
      st.temp_mark = [] →
      SortInv decls st →
      ∃ st', sort_blocks_go decls (sort_fuel decls) iter st = some st' ∧
        st'.temp_mark = [] ∧
        SortInv decls st' ∧
        (∃ tail, st'.sorted = st.sorted ++ tail) ∧
        (∀ b ∈ iter, b.name ∈ st'.sorted.map (fun d => d.name)) := by
  intro iter
  induction iter with
  | nil =>
    intro st _ htemp hinv
    exact ⟨st, rfl, htemp, hinv, ⟨[], by simp⟩, by simp⟩
  | cons b rest ihrest =>
    intro st hmem htemp hinv
    have hbdecl : b ∈ decls := hmem b (by simp)
    have hrest : ∀ d ∈ rest, d ∈ decls := fun d hd => hmem d (by simp [hd])
    by_cases hvis : (alookup st.visited b.name).getD false = true
    · rcases ihrest st hrest htemp hinv with
        ⟨st', hgo, htemp', hinv', ⟨tail, htail⟩, hnames'⟩
      refine ⟨st', ?_, htemp', hinv', ⟨tail, htail⟩, ?_⟩
      · simp [sort_blocks_go, hvis, hgo]
      · intro d hd
        rcases List.mem_cons.mp hd with hd | hd
        · have hb_sorted : b.name ∈ st.sorted.map (fun d => d.name) :=
            (hinv.1 b.name).mp hvis
          rw [hd, htail, List.map_append]
          exact List.mem_append_left _ hb_sorted
        · exact hnames' d hd
    · have hfuel : ((decls.map (fun d => d.name)).filter
          (fun x => !marked st.temp_mark x)).length + 1 ≤ sort_fuel decls := by
        have hle : ((decls.map (fun d => d.name)).filter
            (fun x => !marked st.temp_mark x)).length ≤
              (decls.map (fun d => d.name)).length :=
          List.length_filter_le _ _
        rw [List.length_map] at hle
        unfold sort_fuel
        omega
      have hv := visit_spec decls hnd hacyc (sort_fuel decls) b st []
        hbdecl (by simpa using htemp) (by simp) (by simp)
        (by intro i hi; simp at hi) hinv hfuel
      rcases hv with ⟨st1, hvisit, htemp1, hinv1, ⟨tail1, hsorted1, _⟩, hbname1, _⟩
      rcases ihrest st1 hrest (by rw [htemp1, htemp]) hinv1 with
        ⟨st', hgo, htemp', hinv', ⟨tail, htail⟩, hnames'⟩
      refine ⟨st', ?_, htemp', hinv', ⟨tail1 ++ tail, ?_⟩, ?_⟩
      · simp [sort_blocks_go, hvis, hvisit, hgo]
      · rw [htail, hsorted1, List.append_assoc]
      · intro d hd
        rcases List.mem_cons.mp hd with hd | hd
        · rw [hd, htail, List.map_append]
          exact List.mem_append_left _ hbname1
        · exact hnames' d hd

/-- C2. For every file whose top-level declarations (with pairwise distinct
names, i.e. after duplicate removal) have acyclic in-file inheritance,
`sort_blocks` returns an order that contains every declaration exactly once
(the output's name list is a permutation of the input's, and every output
entry is an input declaration) in which each declaration's named parent,
whenever declared in the same file, appears strictly before it — whatever
the textual order of the declarations. -/
theorem sort_blocks_topological (decls : List BlockDeclaration)
    (diags : List EvalError)
    (hnd : (decls.map (fun d => d.name)).Nodup)
    (hacyc : has_inherit_cycle decls = false) :
    ∃ sorted diags', sort_blocks decls diags = some (sorted, diags') ∧
      (sorted.map (fun d => d.name)).Perm (decls.map (fun d => d.name)) ∧
      (∀ d ∈ sorted, d ∈ decls) ∧
      (∀ d ∈ decls, ∀ p pl, d.parent = some (p, pl) →
        p ∈ decls.map (fun d => d.name) →
        ∃ i j : Nat, i < j ∧
          (sorted.map (fun d => d.name))[i]? = some p ∧
          (sorted.map (fun d => d.name))[j]? = some d.name) := by
  have hinv0 : SortInv decls
      { sorted := [], visited := [], temp_mark := [], diags := diags } := by
    refine ⟨?_, ?_, ?_, ?_⟩
    · intro x
      simp [marked, alookup]
    · intro d hd
      simp at hd
    · simp
    · intro i hi
      simp at hi
  rcases sort_blocks_go_spec decls hnd hacyc decls
      { sorted := [], visited := [], temp_mark := [], diags := diags }
      (fun b hb => hb) rfl hinv0 with
    ⟨st', hgo, _, hinv', _, hnames'⟩
  refine ⟨st'.sorted, st'.diags, ?_, ?_, hinv'.2.1, ?_⟩
  · unfold sort_blocks
    rw [hgo]
  · -- the output names are a permutation of the declared names
    have hsub1 : st'.sorted.map (fun d => d.name) ⊆ decls.map (fun d => d.name) := by
      intro x hx
      rcases List.mem_map.mp hx with ⟨d, hd, hname⟩
      rw [← hname]
      exact List.mem_map_of_mem _ (hinv'.2.1 d hd)
    have hsub2 : decls.map (fun d => d.name) ⊆ st'.sorted.map (fun d => d.name) := by
      intro x hx
      rcases List.mem_map.mp hx with ⟨d, hd, hname⟩
      rw [← hname]
      exact hnames' d hd
    exact (hinv'.2.2.1.subperm hsub1).antisymm (hnd.subperm hsub2)
  · intro d hd p pl hpar hpmem
    have hdname : d.name ∈ st'.sorted.map (fun d => d.name) := hnames' d hd
    rcases List.mem_map.mp hdname with ⟨d', hd'mem, hd'name⟩
    have hd'eq : d' = d :=
      name_injective decls hnd d' d (hinv'.2.1 d' hd'mem) hd hd'name
    rcases List.mem_iff_getElem.mp hd'mem with ⟨j, hjlen, hdj⟩
    have hparj : (st'.sorted[j]).parent = some (p, pl) := by
      rw [hdj, hd'eq, hpar]
    obtain ⟨i, hilen, hij, hiname⟩ := hinv'.2.2.2 j hjlen p pl hparj hpmem
    refine ⟨i, j, hij, ?_, ?_⟩
    · rw [List.getElem?_map, List.getElem?_eq_getElem hilen]
      simp [hiname]
    · rw [List.getElem?_map, List.getElem?_eq_getElem hjlen]
      simp [hdj, hd'eq]

/-- Witness data for C2: `module B from A` declared before `module A`. -/
def c2_B : BlockDeclaration :=
  { kind := .Module, name := "B", name_loc := { file := "f", id := 0 },
    parent := some ("A", { file := "f", id := 1 }), body := [],
    location := { file := "f", id := 2 } }

def c2_A : BlockDeclaration :=
  { kind := .Module, name := "A", name_loc := { file := "f", id := 3 },
    parent := none, body := [], location := { file := "f", id := 4 } }

/-- Witness for `sort_blocks_topological`: with `module B from A` declared
before `module A`, the returned order still evaluates A before B. -/
theorem sort_blocks_topological_witness :
    ((([c2_B, c2_A] : List BlockDeclaration).map (fun d => d.name)).Nodup ∧
     has_inherit_cycle [c2_B, c2_A] = false ∧
     ∃ sorted diags', sort_blocks [c2_B, c2_A] [] = some (sorted, diags') ∧
       (sorted.map (fun d => d.name)).Perm
         ([c2_B, c2_A].map (fun d => d.name)) ∧
       (∀ d ∈ sorted, d ∈ [c2_B, c2_A]) ∧
       (∀ d ∈ [c2_B, c2_A], ∀ p pl, d.parent = some (p, pl) →
         p ∈ [c2_B, c2_A].map (fun d => d.name) →
         ∃ i j : Nat, i < j ∧
           (sorted.map (fun d => d.name))[i]? = some p ∧
           (sorted.map (fun d => d.name))[j]? = some d.name)) ∧
    (sort_blocks [c2_B, c2_A] []).map (fun r => r.1.map (fun d => d.name)) =
      some ["A", "B"] := by
  refine ⟨⟨by decide, by decide, ?_⟩, rfl⟩
  exact sort_blocks_topological [c2_B, c2_A] [] (by decide) (by decide)

/-! ## C1: clone fidelity -/

/-- The reference at a path below `r`. -/
def at_path (r : InstanceRef) (p : List Symbol) : InstanceRef :=
  { module := r.module, instance_path := r.instance_path ++ p }

theorem at_path_append (r : InstanceRef) (p q : List Symbol) :
    at_path (at_path r p) q = at_path r (p ++ q) := by
  simp [at_path]

theorem at_path_nil (r : InstanceRef) : at_path r [] = r := by
  simp [at_path]

theorem at_path_inj (r : InstanceRef) (p q : List Symbol)
    (h : at_path r p = at_path r q) : p = q := by
  simpa [at_path] using congrArg InstanceRef.instance_path h

/-- The shape of one instance subtree: the instance at each node together
with its named children's subtrees, in children-map order. -/
inductive ITree where
  | node : Instance → List (Symbol × ITree) → ITree

mutual

/-- Height of a subtree (a leaf has height 1); `clone_instance` needs that
much fuel. -/
def ITree.height : ITree → Nat
  | .node _ cs => heightList cs + 1

def heightList : List (Symbol × ITree) → Nat
  | [] => 0
  | (_, t) :: cs => max t.height (heightList cs)

end

mutual

/-- The relative paths of all nodes of a subtree (`[]` is the root). -/
def ITree.relPaths : ITree → List (List Symbol)
  | .node _ cs => [] :: relPathsList cs

def relPathsList : List (Symbol × ITree) → List (List Symbol)
  | [] => []
  | (k, t) :: cs => t.relPaths.map (fun p => k :: p) ++ relPathsList cs

end

mutual

/-- The instance recorded at a relative path of the subtree. -/
def ITree.nodeAt : ITree → List Symbol → Option Instance
  | .node inst _, [] => some inst
  | .node _ cs, k :: p => nodeAtList cs (k :: p)

def nodeAtList : List (Symbol × ITree) → List Symbol → Option Instance
  | _, [] => none
  | [], _ :: _ => none
  | (k', t) :: cs, k :: p => if k' = k then t.nodeAt p else nodeAtList cs (k :: p)

end

mutual

/-- The store contains the full subtree `t` at `ref`: the instance is
present, its children names are pairwise distinct (they model `HashMap`
keys), each child reference extends the parent's path by its name (the
store invariant), and each child's subtree is present in turn. -/
def HasSubtreeAt (s : Store) : InstanceRef → ITree → Prop
  | ref, .node inst cs =>
    resolve_instance s ref = some inst ∧
    (inst.children.map Prod.fst).Nodup ∧
    HasChildrenAt s ref inst.children cs

/-- The children maps of `HasSubtreeAt`, aligned entrywise. -/
def HasChildrenAt (s : Store) : InstanceRef → List (Symbol × InstanceRef) →
    List (Symbol × ITree) → Prop
  | _, [], [] => True
  | ref, (k, c) :: rest, (k', t) :: cs =>
    k = k' ∧ c = at_path ref [k] ∧ HasSubtreeAt s c t ∧
    HasChildrenAt s ref rest cs
  | _, _ :: _, [] => False
  | _, [], _ :: _ => False

end

/-- What `clone_instance` writes at the image of relative path `p`: the
original's type, kind and attributes; the children renamed under the image
path; the connections transposed node-wise (each endpoint stripped of this
node's source path when it is a prefix, and re-prefixed with this node's
target path). -/
def clone_copy (from_ref to_ref : InstanceRef) (p : List Symbol)
    (inst : Instance) : Instance :=
  { type_ref := inst.type_ref, kind := inst.kind, attributes := inst.attributes,
    children := inst.children.map (fun c => (c.1, at_path to_ref (p ++ [c.1]))),
    connections := inst.connections.map
      (transpose_conn (at_path from_ref p) (at_path to_ref p)),
    reference_designator := none }

theorem clone_copy_shift (from_ref to_ref : InstanceRef) (k : Symbol)
    (q : List Symbol) (inst : Instance) :
    clone_copy (at_path from_ref [k]) (at_path to_ref [k]) q inst =
      clone_copy from_ref to_ref (k :: q) inst := by
  simp [clone_copy, at_path_append]

/-- Every relative path below the children level starts with a child's
name. -/
theorem relPathsList_heads :
    ∀ (children : List (Symbol × InstanceRef)) (cs : List (Symbol × ITree))
      (s : Store) (ref : InstanceRef),
      HasChildrenAt s ref children cs →
      ∀ p ∈ relPathsList cs, ∃ k q, p = k :: q ∧ k ∈ children.map Prod.fst := by
  intro children
  induction children with
  | nil =>
    intro cs s ref h p hp
    cases cs with
    | nil => simp [relPathsList] at hp
    | cons c cs' => simp [HasChildrenAt] at h
  | cons kc rest ih =>
    intro cs s ref h p hp
    rcases kc with ⟨k, c⟩
    cases cs with
    | nil => simp [HasChildrenAt] at h
    | cons kt cs' =>
      rcases kt with ⟨k', t⟩
      rcases h with ⟨hk, _, _, hrest⟩
      subst hk
      rw [relPathsList, List.mem_append] at hp
      rcases hp with hp | hp
      · rcases List.mem_map.mp hp with ⟨q, _, hq⟩
        exact ⟨k, q, hq.symm, by simp⟩
      · rcases ih cs' s ref hrest p hp with ⟨k2, q2, hpq, hk2⟩
        exact ⟨k2, q2, hpq, by simp [hk2]⟩

/-- A subtree stays present in any store that agrees with the old one on
every key the old store populates. -/
theorem subtree_mono : ∀ n : Nat,
    (∀ t : ITree, t.height ≤ n → ∀ s s' ref, HasSubtreeAt s ref t →
      (∀ r, (resolve_instance s r).isSome →
        resolve_instance s' r = resolve_instance s r) →
      HasSubtreeAt s' ref t) ∧
    (∀ cs : List (Symbol × ITree), heightList cs ≤ n →
      ∀ s s' ref children, HasChildrenAt s ref children cs →
      (∀ r, (resolve_instance s r).isSome →
        resolve_instance s' r = resolve_instance s r) →
      HasChildrenAt s' ref children cs) := by
  intro n
  induction n with
  | zero =>
    constructor
    · intro t ht
      cases t with
      | node inst cs => simp [ITree.height] at ht
    · intro cs hcs s s' ref children h _
      cases cs with
      | nil =>
        cases children with
        | nil => trivial
        | cons _ _ => exact absurd h (by simp [HasChildrenAt])
      | cons kt cs' =>
        rcases kt with ⟨k', t⟩
        cases t with
        | node inst cc => simp [heightList, ITree.height] at hcs
  | succ n ihn =>
    have tree_n1 : ∀ t : ITree, t.height ≤ n + 1 → ∀ s s' ref,
        HasSubtreeAt s ref t →
        (∀ r, (resolve_instance s r).isSome →
          resolve_instance s' r = resolve_instance s r) →
        HasSubtreeAt s' ref t := by
      intro t ht s s' ref hsub hag
      cases t with
      | node inst cs =>
        simp only [HasSubtreeAt] at hsub ⊢
        obtain ⟨hres, hnd, hch⟩ := hsub
        refine ⟨?_, hnd, ?_⟩
        · rw [hag ref (by simp [hres])]
          exact hres
        · refine ihn.2 cs ?_ s s' ref inst.children hch hag
          simp only [ITree.height] at ht
          omega
    refine ⟨tree_n1, ?_⟩
    intro cs
    induction cs with
    | nil =>
      intro _ s s' ref children h _
      cases children with
      | nil => trivial
      | cons _ _ => exact absurd h (by simp [HasChildrenAt])
    | cons kt cs' ihcs =>
      intro hcs s s' ref children h hag
      rcases kt with ⟨k', t⟩
      cases children with
      | nil => exact absurd h (by simp [HasChildrenAt])
      | cons kc rest =>
        rcases kc with ⟨k, c⟩
        simp only [HasChildrenAt] at h ⊢
        obtain ⟨hk, hc, hsub, hrest⟩ := h
        have hmax : t.height ≤ n + 1 ∧ heightList cs' ≤ n + 1 := by
          simp only [heightList, Nat.max_le] at hcs
          exact hcs
        exact ⟨hk, hc, tree_n1 t hmax.1 s s' c hsub hag,
          ihcs hmax.2 s s' ref rest hrest hag⟩

/-- Every subtree key is populated in a store containing the subtree. -/
theorem subtree_resolve_some : ∀ n : Nat,
    (∀ t : ITree, t.height ≤ n → ∀ s ref, HasSubtreeAt s ref t →
      ∀ p ∈ t.relPaths, (resolve_instance s (at_path ref p)).isSome) ∧
    (∀ cs : List (Symbol × ITree), heightList cs ≤ n →
      ∀ s ref children, HasChildrenAt s ref children cs →
      ∀ p ∈ relPathsList cs, (resolve_instance s (at_path ref p)).isSome) := by
  intro n
  induction n with
  | zero =>
    constructor
    · intro t ht
      cases t with
      | node inst cs => simp [ITree.height] at ht
    · intro cs hcs s ref children h p hp
      cases cs with
      | nil => simp [relPathsList] at hp
      | cons kt cs' =>
        rcases kt with ⟨k', t⟩
        cases t with
        | node inst cc => simp [heightList, ITree.height] at hcs
  | succ n ihn =>
    have tree_n1 : ∀ t : ITree, t.height ≤ n + 1 → ∀ s ref,
        HasSubtreeAt s ref t →
        ∀ p ∈ t.relPaths, (resolve_instance s (at_path ref p)).isSome := by
      intro t ht s ref hsub p hp
      cases t with
      | node inst cs =>
        simp only [HasSubtreeAt] at hsub
        obtain ⟨hres, _, hch⟩ := hsub
        rw [ITree.relPaths, List.mem_cons] at hp
        rcases hp with hp | hp
        · rw [hp, at_path_nil, hres]
          rfl
        · refine ihn.2 cs ?_ s ref inst.children hch p hp
          simp only [ITree.height] at ht
          omega
    refine ⟨tree_n1, ?_⟩
    intro cs
    induction cs with
    | nil =>
      intro _ s ref children _ p hp
      simp [relPathsList] at hp
    | cons kt cs' ihcs =>
      intro hcs s ref children h p hp
      rcases kt with ⟨k', t⟩
      cases children with
      | nil => exact absurd h (by simp [HasChildrenAt])
      | cons kc rest =>
        rcases kc with ⟨k, c⟩
        simp only [HasChildrenAt] at h
        obtain ⟨hk, hc, hsub, hrest⟩ := h
        have hmax : t.height ≤ n + 1 ∧ heightList cs' ≤ n + 1 := by
          simp only [heightList, Nat.max_le] at hcs
          exact hcs
        rw [relPathsList, List.mem_append] at hp
        rcases hp with hp | hp
        · rcases List.mem_map.mp hp with ⟨q, hq, hpq⟩
          have : at_path ref p = at_path c q := by
            rw [hc, at_path_append, ← hpq, hk]
            rfl
          rw [this]
          exact tree_n1 t hmax.1 s c hsub q hq
        · exact ihcs hmax.2 s ref rest hrest p hp

/-- The relative paths of a subtree are pairwise distinct (children names
are). -/
theorem subtree_paths_nodup : ∀ n : Nat,
    (∀ t : ITree, t.height ≤ n → ∀ s ref, HasSubtreeAt s ref t →
      t.relPaths.Nodup) ∧
    (∀ cs : List (Symbol × ITree), heightList cs ≤ n →
      ∀ s ref children, HasChildrenAt s ref children cs →
      (children.map Prod.fst).Nodup → (relPathsList cs).Nodup) := by
  intro n
  induction n with
  | zero =>
    constructor
    · intro t ht
      cases t with
      | node inst cs => simp [ITree.height] at ht
    · intro cs hcs s ref children h _
      cases cs with
      | nil => simp [relPathsList]
      | cons kt cs' =>
        rcases kt with ⟨k', t⟩
        cases t with
        | node inst cc => simp [heightList, ITree.height] at hcs
  | succ n ihn =>
    have tree_n1 : ∀ t : ITree, t.height ≤ n + 1 → ∀ s ref,
        HasSubtreeAt s ref t → t.relPaths.Nodup := by
      intro t ht s ref hsub
      cases t with
      | node inst cs =>
        simp only [HasSubtreeAt] at hsub
        obtain ⟨_, hnd, hch⟩ := hsub
        rw [ITree.relPaths, List.nodup_cons]
        constructor
        · intro hmem
          rcases relPathsList_heads inst.children cs s ref hch [] hmem with
            ⟨k, q, hkq, _⟩
          exact List.noConfusion hkq
        · refine ihn.2 cs ?_ s ref inst.children hch hnd
          simp only [ITree.height] at ht
          omega
    refine ⟨tree_n1, ?_⟩
    intro cs
    induction cs with
    | nil =>
      intro _ s ref children _ _
      simp [relPathsList]
    | cons kt cs' ihcs =>
      intro hcs s ref children h hnd
      rcases kt with ⟨k', t⟩
      cases children with
      | nil => exact absurd h (by simp [HasChildrenAt])
      | cons kc rest =>
        rcases kc with ⟨k, c⟩
        simp only [HasChildrenAt] at h
        obtain ⟨hk, hc, hsub, hrest⟩ := h
        subst hk
        have hmax : t.height ≤ n + 1 ∧ heightList cs' ≤ n + 1 := by
          simp only [heightList, Nat.max_le] at hcs
          exact hcs
        have hnd' : (k :: rest.map Prod.fst).Nodup := hnd
        rcases List.nodup_cons.mp hnd' with ⟨hkrest, hndrest⟩
        rw [relPathsList]
        refine List.Nodup.append ?_ ?_ ?_
        · exact (tree_n1 t hmax.1 s c hsub).map
            (fun p q hpq => List.tail_eq_of_cons_eq hpq)
        · exact ihcs hmax.2 s ref rest hrest hndrest
        · intro p hp1 hp2
          rcases List.mem_map.mp hp1 with ⟨q, _, hq⟩
          rcases relPathsList_heads rest cs' s ref hrest p hp2 with
            ⟨k2, q2, hpq2, hk2⟩
          rw [← hq] at hpq2
          have hkk2 : k = k2 := List.head_eq_of_cons_eq hpq2
          rw [hkk2] at hkrest
          exact hkrest hk2

/-- Fidelity of the children loop, given fidelity of `clone_instance` at
the loop's fuel. -/
theorem clone_children_fidelity (fuel : Nat)
    (IH : ∀ (t : ITree) (s : Store) (from_ref to_ref : InstanceRef),
      HasSubtreeAt s from_ref t →
      (∀ p ∈ t.relPaths, resolve_instance s (at_path to_ref p) = none) →
      t.height ≤ fuel →
      ∃ s', clone_instance fuel s from_ref to_ref = some s' ∧
        (∀ r, (∀ p ∈ t.relPaths, r ≠ at_path to_ref p) →
          resolve_instance s' r = resolve_instance s r) ∧
        (∀ p ∈ t.relPaths, ∀ inst, t.nodeAt p = some inst →
          resolve_instance s' (at_path to_ref p) =
            some (clone_copy from_ref to_ref p inst))) :
    ∀ (children : List (Symbol × InstanceRef)) (cs : List (Symbol × ITree))
      (s : Store) (from_ref to_ref : InstanceRef),
      HasChildrenAt s from_ref children cs →
      (children.map Prod.fst).Nodup →
      (∀ p ∈ relPathsList cs, resolve_instance s (at_path to_ref p) = none) →
      heightList cs ≤ fuel →
      ∃ s', clone_children_w (clone_instance fuel) s to_ref children =
          some (s', children.map (fun c => (c.1, at_path to_ref [c.1]))) ∧
        (∀ r, (∀ p ∈ relPathsList cs, r ≠ at_path to_ref p) →
          resolve_instance s' r = resolve_instance s r) ∧
        (∀ p ∈ relPathsList cs, ∀ inst, nodeAtList cs p = some inst →
          resolve_instance s' (at_path to_ref p) =
            some (clone_copy from_ref to_ref p inst)) := by
  intro children
  induction children with
  | nil =>
    intro cs s from_ref to_ref h _ _ _
    cases cs with
    | nil =>
      refine ⟨s, rfl, fun r _ => rfl, ?_⟩
      intro p hp
      simp [relPathsList] at hp
    | cons _ _ => exact absurd h (by simp [HasChildrenAt])
  | cons kc rest ih =>
    intro cs s from_ref to_ref h hnd himg hheight
    rcases kc with ⟨k, c⟩
    cases cs with
    | nil => exact absurd h (by simp [HasChildrenAt])
    | cons kt cs' =>
      rcases kt with ⟨k', t⟩
      simp only [HasChildrenAt] at h
      obtain ⟨hk, hc, hsub, hrest⟩ := h
      subst hk
      have hnd' : (k :: rest.map Prod.fst).Nodup := hnd
      rcases List.nodup_cons.mp hnd' with ⟨hkrest, hndrest⟩
      have hmax : t.height ≤ fuel ∧ heightList cs' ≤ fuel := by
        simp only [heightList, Nat.max_le] at hheight
        exact hheight
      have hchild_img : ∀ q ∈ t.relPaths,
          resolve_instance s (at_path (at_path to_ref [k]) q) = none := by
        intro q hq
        rw [at_path_append]
        exact himg (k :: q)
          (by rw [relPathsList, List.mem_append]
              exact Or.inl (List.mem_map.mpr ⟨q, hq, rfl⟩))
      obtain ⟨s1, hclone1, hframe1, hcopies1⟩ :=
        IH t s c (at_path to_ref [k]) hsub hchild_img hmax.1
      have hagree : ∀ r, (resolve_instance s r).isSome →
          resolve_instance s1 r = resolve_instance s r := by
        intro r hr
        apply hframe1
        intro q hq heq
        rw [heq, hchild_img q hq] at hr
        simp at hr
      have hrest1 : HasChildrenAt s1 from_ref rest cs' :=
        (subtree_mono (heightList cs')).2 cs' le_rfl s s1 from_ref rest hrest hagree
      have hrest_img : ∀ p ∈ relPathsList cs',
          resolve_instance s1 (at_path to_ref p) = none := by
        intro p hp
        rw [hframe1 _ ?_]
        · exact himg p (by rw [relPathsList, List.mem_append]; exact Or.inr hp)
        · intro q hq heq
          rcases relPathsList_heads rest cs' s from_ref hrest p hp with
            ⟨k2, q2, hpq, hk2⟩
          rw [at_path_append] at heq
          have := at_path_inj to_ref p ([k] ++ q) heq
          rw [hpq] at this
          have hkk2 : k2 = k := List.head_eq_of_cons_eq this
          rw [← hkk2] at hkrest
          exact hkrest hk2
      obtain ⟨s2, hclone2, hframe2, hcopies2⟩ :=
        ih cs' s1 from_ref to_ref hrest1 hndrest hrest_img hmax.2
      have hnot_rest_img : ∀ q ∈ t.relPaths,
          ∀ p2 ∈ relPathsList cs', at_path to_ref (k :: q) ≠ at_path to_ref p2 := by
        intro q _ p2 hp2 heq
        rcases relPathsList_heads rest cs' s from_ref hrest p2 hp2 with
          ⟨k2, q2, hpq2, hk2⟩
        have := at_path_inj to_ref (k :: q) p2 heq
        rw [hpq2] at this
        have hkk2 : k = k2 := List.head_eq_of_cons_eq this
        rw [hkk2] at hkrest
        exact hkrest hk2
      refine ⟨s2, ?_, ?_, ?_⟩
      · simp only [clone_children_w]
        simp only [show clone_instance fuel s c
            { module := to_ref.module,
              instance_path := to_ref.instance_path ++ [k] } = some s1 from hclone1]
        simp only [show clone_children_w (clone_instance fuel) s1 to_ref rest =
            some (s2, rest.map (fun c => (c.1, at_path to_ref [c.1])))
          from hclone2]
        rfl
      · intro r hr
        rw [hframe2 r ?_, hframe1 r ?_]
        · intro q hq heq
          refine hr (k :: q) ?_ ?_
          · rw [relPathsList, List.mem_append]
            exact Or.inl (List.mem_map.mpr ⟨q, hq, rfl⟩)
          · rw [heq, at_path_append]
            rfl
        · intro p hp heq
          exact hr p (by rw [relPathsList, List.mem_append]; exact Or.inr hp) heq
      · intro p hp inst hnode
        rw [relPathsList, List.mem_append] at hp
        rcases hp with hp | hp
        · rcases List.mem_map.mp hp with ⟨q, hq, hpq⟩
          rw [← hpq] at hnode ⊢
          have hnode' : t.nodeAt q = some inst := by
            simpa [nodeAtList] using hnode
          have h1 := hcopies1 q hq inst hnode'
          rw [hc, clone_copy_shift] at h1
          have e1 : at_path (at_path to_ref [k]) q = at_path to_ref (k :: q) := by
            rw [at_path_append]
            rfl
          rw [e1] at h1
          rw [hframe2 _ (fun p2 hp2 => hnot_rest_img q hq p2 hp2)]
          exact h1
        · have hnode' : nodeAtList cs' p = some inst := by
            rcases relPathsList_heads rest cs' s from_ref hrest p hp with
              ⟨k2, q2, hpq, hk2⟩
            have hk2k : ¬ k = k2 := fun he => hkrest (he ▸ hk2)
            rw [hpq] at hnode ⊢
            simpa [nodeAtList, hk2k] using hnode
          exact hcopies2 p hp inst hnode'

/-- Fidelity of `clone_instance` at any sufficient fuel. -/
theorem clone_instance_fidelity_aux : ∀ fuel : Nat,
    ∀ (t : ITree) (s : Store) (from_ref to_ref : InstanceRef),
      HasSubtreeAt s from_ref t →
      (∀ p ∈ t.relPaths, resolve_instance s (at_path to_ref p) = none) →
      t.height ≤ fuel →
      ∃ s', clone_instance fuel s from_ref to_ref = some s' ∧
        (∀ r, (∀ p ∈ t.relPaths, r ≠ at_path to_ref p) →
          resolve_instance s' r = resolve_instance s r) ∧
        (∀ p ∈ t.relPaths, ∀ inst, t.nodeAt p = some inst →
          resolve_instance s' (at_path to_ref p) =
            some (clone_copy from_ref to_ref p inst)) := by
  intro fuel
  induction fuel with
  | zero =>
    intro t s from_ref to_ref _ _ ht
    cases t with
    | node inst cs => simp [ITree.height] at ht
  | succ fuel ih =>
    intro t s from_ref to_ref hsub hnone ht
    cases t with
    | node inst cs =>
      simp only [HasSubtreeAt] at hsub
      obtain ⟨hres, hnd, hch⟩ := hsub
      have hheight : heightList cs ≤ fuel := by
        simp only [ITree.height] at ht
        omega
      have hcs_none : ∀ p ∈ relPathsList cs,
          resolve_instance s (at_path to_ref p) = none := by
        intro p hp
        exact hnone p (by rw [ITree.relPaths]; exact List.mem_cons_of_mem _ hp)
      obtain ⟨s1, hcc, hframe1, hcopies1⟩ :=
        clone_children_fidelity fuel ih inst.children cs s from_ref to_ref
          hch hnd hcs_none hheight
      refine ⟨add_instance s1 to_ref
        { type_ref := inst.type_ref, kind := inst.kind,
          attributes := inst.attributes,
          children := inst.children.map (fun c => (c.1, at_path to_ref [c.1])),
          connections := inst.connections.map (transpose_conn from_ref to_ref),
          reference_designator := none }, ?_, ?_, ?_⟩
      · simp only [clone_instance]
        simp only [show resolve_instance s from_ref = some inst from hres]
        simp only [hcc]
      · intro r hr
        have hrtr : ¬ r = to_ref := by
          have := hr [] (by rw [ITree.relPaths]; exact List.mem_cons_self _ _)
          rw [at_path_nil] at this
          exact this
        show alookup (ainsert s1 to_ref _) r = alookup s r
        rw [show ∀ v, alookup (ainsert s1 to_ref v) r = alookup s1 r from
          fun v => alookup_ainsert_ne s1 to_ref r v (fun he => hrtr he.symm) |>.trans rfl]
        exact hframe1 r (fun p hp =>
          hr p (by rw [ITree.relPaths]; exact List.mem_cons_of_mem _ hp))
      · intro p hp inst0 hnode
        rw [ITree.relPaths, List.mem_cons] at hp
        rcases hp with hp | hp
        · subst hp
          have hinst : inst0 = inst := by
            simp only [ITree.nodeAt] at hnode
            exact (Option.some.inj hnode).symm
          subst hinst
          rw [at_path_nil]
          show alookup (ainsert s1 to_ref _) to_ref = _
          rw [alookup_ainsert_self]
          simp [clone_copy, at_path_nil]
        · rcases relPathsList_heads inst.children cs s from_ref hch p hp with
            ⟨k2, q2, hpq, _⟩
          have hnode' : nodeAtList cs p = some inst0 := by
            rw [hpq] at hnode ⊢
            simpa [ITree.nodeAt] using hnode
          have hptr : ¬ at_path to_ref p = to_ref := by
            intro he
            have := congrArg InstanceRef.instance_path he
            simp only [at_path] at this
            rw [hpq] at this
            have hlen := congrArg List.length this
            simp at hlen
          show alookup (ainsert s1 to_ref _) (at_path to_ref p) = _
          rw [alookup_ainsert_ne s1 to_ref (at_path to_ref p) _
            (fun he => hptr he.symm)]
          exact hcopies1 p hp inst0 hnode'

/-- C1 (amended). If the store contains the full subtree of `from` (tree
`t`, with N+1 nodes listed by `t.relPaths`) and none of the N+1 target
references `to ++ p` is already populated, then `clone_instance` (with fuel
at least the subtree height) succeeds; it touches nothing outside the N+1
pairwise distinct target references; at each target reference it creates an
instance that copies its original's kind, type and attribute map, registers
under every child name `k` the copy's path extended by `k`, and carries one
connection per original connection, with each endpoint rewritten by
stripping that node's own source path prefix when present and prepending
that node's target path (for endpoints inside the node's subtree this is
the same as stripping `from` and prepending `to`). -/
theorem clone_instance_fidelity
    (t : ITree) (fuel : Nat) (s : Store) (from_ref to_ref : InstanceRef)
    (hsub : HasSubtreeAt s from_ref t)
    (hfresh : ∀ p ∈ t.relPaths, resolve_instance s (at_path to_ref p) = none)
    (hfuel : t.height ≤ fuel) :
    ∃ s', clone_instance fuel s from_ref to_ref = some s' ∧
      t.relPaths.Nodup ∧
      (∀ r, (∀ p ∈ t.relPaths, r ≠ at_path to_ref p) →
        resolve_instance s' r = resolve_instance s r) ∧
      (∀ p ∈ t.relPaths, ∀ inst, t.nodeAt p = some inst →
        resolve_instance s' (at_path to_ref p) =
          some (clone_copy from_ref to_ref p inst)) ∧
      (∀ p ∈ t.relPaths, ∀ inst, t.nodeAt p = some inst →
        ∃ copy, resolve_instance s' (at_path to_ref p) = some copy ∧
          copy.kind = inst.kind ∧ copy.type_ref = inst.type_ref ∧
          copy.attributes = inst.attributes ∧
          copy.children = inst.children.map
            (fun c => (c.1, at_path to_ref (p ++ [c.1]))) ∧
          copy.connections.length = inst.connections.length) := by
  obtain ⟨s', hclone, hframe, hcopies⟩ :=
    clone_instance_fidelity_aux fuel t s from_ref to_ref hsub hfresh hfuel
  refine ⟨s', hclone,
    (subtree_paths_nodup t.height).1 t le_rfl s from_ref hsub,
    hframe, hcopies, ?_⟩
  intro p hp inst hnode
  exact ⟨clone_copy from_ref to_ref p inst, hcopies p hp inst hnode,
    rfl, rfl, rfl, rfl, by simp [clone_copy]⟩

/-- Witness data for `clone_instance_fidelity`: a one-node subtree cloned
to a fresh sibling path. -/
def w1_m : ModuleRef := { source_path := "f", module_name := "M" }

def w1_from : InstanceRef := { module := w1_m, instance_path := ["a"] }

def w1_to : InstanceRef := { module := w1_m, instance_path := ["b"] }

def w1_store : Store := [(w1_from, Instance.port)]

def w1_tree : ITree := .node Instance.port []

/-- Witness for `clone_instance_fidelity`. -/
theorem clone_instance_fidelity_witness :
    HasSubtreeAt w1_store w1_from w1_tree ∧
    (∀ p ∈ w1_tree.relPaths,
      resolve_instance w1_store (at_path w1_to p) = none) ∧
    w1_tree.height ≤ 1 ∧
    (∃ s', clone_instance 1 w1_store w1_from w1_to = some s' ∧
      w1_tree.relPaths.Nodup ∧
      (∀ r, (∀ p ∈ w1_tree.relPaths, r ≠ at_path w1_to p) →
        resolve_instance s' r = resolve_instance w1_store r) ∧
      (∀ p ∈ w1_tree.relPaths, ∀ inst, w1_tree.nodeAt p = some inst →
        resolve_instance s' (at_path w1_to p) =
          some (clone_copy w1_from w1_to p inst)) ∧
      (∀ p ∈ w1_tree.relPaths, ∀ inst, w1_tree.nodeAt p = some inst →
        ∃ copy, resolve_instance s' (at_path w1_to p) = some copy ∧
          copy.kind = inst.kind ∧ copy.type_ref = inst.type_ref ∧
          copy.attributes = inst.attributes ∧
          copy.children = inst.children.map
            (fun c => (c.1, at_path w1_to (p ++ [c.1]))) ∧
          copy.connections.length = inst.connections.length)) := by
  have h1 : HasSubtreeAt w1_store w1_from w1_tree := by
    simp only [w1_tree, HasSubtreeAt, HasChildrenAt]
    exact ⟨rfl, by simp [Instance.port], trivial⟩
  have h2 : ∀ p ∈ w1_tree.relPaths,
      resolve_instance w1_store (at_path w1_to p) = none := by
    intro p hp
    simp only [w1_tree, ITree.relPaths, relPathsList, List.mem_singleton] at hp
    subst hp
    rfl
  have h3 : w1_tree.height ≤ 1 := by
    simp [w1_tree, ITree.height, heightList]
  exact ⟨h1, h2, h3,
    clone_instance_fidelity w1_tree 1 w1_store w1_from w1_to h1 h2 h3⟩

/-- Counterexample data: the target root lies inside the source subtree.
Module `M`, source `M.p` whose children are `p ↦ M.p.p` (a Module with a
Pin child `q ↦ M.p.p.q`) and `q ↦ M.p.q` (a Port); target: the root `M`. -/
def c1x_m : ModuleRef := { source_path := "f", module_name := "M" }

def c1x_from : InstanceRef := { module := c1x_m, instance_path := ["p"] }

def c1x_rpp : InstanceRef := { module := c1x_m, instance_path := ["p", "p"] }

def c1x_rppq : InstanceRef := { module := c1x_m, instance_path := ["p", "p", "q"] }

def c1x_rpq : InstanceRef := { module := c1x_m, instance_path := ["p", "q"] }

def c1x_iA : Instance :=
  { type_ref := c1x_m, kind := .Module, attributes := [],
    children := [("p", c1x_rpp), ("q", c1x_rpq)], connections := [],
    reference_designator := none }

def c1x_iB : Instance :=
  { type_ref := c1x_m, kind := .Module, attributes := [],
    children := [("q", c1x_rppq)], connections := [],
    reference_designator := none }

def c1x_store : Store :=
  [(c1x_from, c1x_iA), (c1x_rpp, c1x_iB), (c1x_rppq, Instance.pin),
   (c1x_rpq, Instance.port)]

def c1x_tree : ITree :=
  .node c1x_iA
    [("p", .node c1x_iB [("q", .node Instance.pin [])]),
     ("q", .node Instance.port [])]

/-- Counterexample to C1 as stated. The store contains the full subtree of
`M.p` (4 instances); the original at relative path `q` is a Port. Yet with
target `M` — a reference the claim quantifies over — `clone_instance`
succeeds and writes a Pin at the image of `q`: the recursion overwrites the
original `M.p.q` (the image of `p.q`) before reading it, so the copy does
not have the same kind as its original. -/
theorem clone_overlap_counterexample :
    HasSubtreeAt c1x_store c1x_from c1x_tree ∧
    c1x_tree.nodeAt ["q"] = some Instance.port ∧
    Instance.port.kind = .Port ∧
    ∃ s', clone_instance 4 c1x_store c1x_from c1x_m.root = some s' ∧
      resolve_instance s' (at_path c1x_m.root ["q"]) = some Instance.pin ∧
      Instance.pin.kind = .Pin := by
  refine ⟨?_, ?_, rfl, ?_⟩
  · simp only [c1x_tree, HasSubtreeAt, HasChildrenAt]
    exact ⟨rfl, by simp [c1x_iA], trivial, rfl,
      ⟨rfl, by simp [c1x_iB], trivial, rfl,
        ⟨rfl, by simp [Instance.pin], trivial⟩, trivial⟩,
      trivial, rfl, ⟨rfl, by simp [Instance.port], trivial⟩, trivial⟩
  · simp [c1x_tree, ITree.nodeAt, nodeAtList]
  · exact ⟨_, rfl, rfl, rfl⟩

end Atopile
